import Mathlib

/-!
Verification of the resume-parsing pipeline in `convex/resumeParser.ts`.

The TypeScript module is shallowly embedded: JavaScript runtime values are
modelled by `JVal`, thrown JavaScript errors by `JsErr` through `Except`, and
each method of `ResumeParser` becomes a Lean function that follows the source
statement by statement.  The module runs as an ES module, so strict-mode
semantics apply (assigning a property on a primitive throws a `TypeError`).
Inputs reaching `validateAndCleanData` come from `JSON.parse`, hence are
finite trees; aliasing between sub-objects cannot occur and the in-place
mutations of the source are modelled by functional update with write-back.
-/

/-- A JavaScript runtime value as used by `resumeParser.ts`.  JSON numbers are
modelled as integers (no claim depends on non-integer numerics).  JavaScript
arrays are objects, so they carry both their elements and any string-keyed
properties that strict-mode assignment may add to them (for a value produced
by `JSON.parse`, `props` is empty). -/
inductive JVal where
  | jundefined
  | jnull
  | jbool (b : Bool)
  | jnum (n : Int)
  | jstr (s : String)
  | jarr (elems : List JVal) (props : List (String × JVal))
  | jobj (props : List (String × JVal))

/-- A thrown JavaScript error, by constructor and message: `new Error(msg)`,
`TypeError` (from runtime semantics), `SyntaxError` (from `JSON.parse`). -/
inductive JsErr where
  | error (msg : String)
  | typeError (msg : String)
  | syntaxError (msg : String)

/-- `String(e)` on a thrown error: the constructor name, a colon, the message. -/
def jsErrString : JsErr → String
  | .error m => "Error: " ++ m
  | .typeError m => "TypeError: " ++ m
  | .syntaxError m => "SyntaxError: " ++ m

/-- Property lookup in an insertion-ordered property list. -/
def lookupProp (props : List (String × JVal)) (k : String) : Option JVal :=
  (props.find? (fun pr => pr.1 == k)).map (fun pr => pr.2)

/-- Property write in an insertion-ordered property list: overwriting an
existing key keeps its position, a new key is appended (JavaScript object
insertion order). -/
def setPropList (props : List (String × JVal)) (k : String) (v : JVal) :
    List (String × JVal) :=
  match props with
  | [] => [(k, v)]
  | pr :: rest =>
      if pr.1 == k then (k, v) :: rest else pr :: setPropList rest k v

/-- JavaScript truthiness of a value (`NaN` is not representable here). -/
def truthy : JVal → Bool
  | .jundefined => false
  | .jnull => false
  | .jbool b => b
  | .jnum n => n != 0
  | .jstr s => s.length != 0
  | .jarr _ _ => true
  | .jobj _ => true

/-- The `typeof` operator.  Note `typeof null` is `"object"`. -/
def jsTypeof : JVal → String
  | .jundefined => "undefined"
  | .jnull => "object"
  | .jbool _ => "boolean"
  | .jnum _ => "number"
  | .jstr _ => "string"
  | .jarr _ _ => "object"
  | .jobj _ => "object"

/-- `Array.isArray`. -/
def isArrayV : JVal → Bool
  | .jarr _ _ => true
  | _ => false

/-- Property read `v[k]`: throws a `TypeError` on `null`/`undefined`, returns
`undefined` for a missing key.  Arrays and strings expose `length`; numeric
index properties of arrays are not modelled because no canonical field name
used by the source is a numeric string. -/
def getProp : JVal → String → Except JsErr JVal
  | .jnull, k =>
      .error (.typeError ("Cannot read properties of null (reading " ++ k ++ ")"))
  | .jundefined, k =>
      .error (.typeError ("Cannot read properties of undefined (reading " ++ k ++ ")"))
  | .jobj props, k => .ok ((lookupProp props k).getD .jundefined)
  | .jarr elems props, k =>
      .ok (if k == "length" then .jnum elems.length
           else (lookupProp props k).getD .jundefined)
  | .jstr s, k => .ok (if k == "length" then .jnum s.length else .jundefined)
  | .jbool _, _ => .ok .jundefined
  | .jnum _, _ => .ok .jundefined

/-- Strict-mode property write `v[k] = x`: objects and arrays accept it,
`null`/`undefined` and primitives throw a `TypeError`.  The source never
assigns the key `length`. -/
def setProp : JVal → String → JVal → Except JsErr JVal
  | .jobj props, k, x => .ok (.jobj (setPropList props k x))
  | .jarr elems props, k, x => .ok (.jarr elems (setPropList props k x))
  | _, k, _ =>
      .error (.typeError ("Cannot create property " ++ k ++ " on non-object"))

/-- The `in` operator `k in v`: requires an object (else `TypeError`); arrays
also own `length` (numeric index keys are not modelled, no canonical field
name is numeric). -/
def hasProp : JVal → String → Except JsErr Bool
  | .jobj props, k => .ok (lookupProp props k).isSome
  | .jarr _ props, k => .ok (k == "length" || (lookupProp props k).isSome)
  | _, k =>
      .error (.typeError ("Cannot use in operator to search for " ++ k ++ " in a non-object"))

/-- `String.prototype.trim` restricted to the ASCII whitespace that occurs in
this pipeline. -/
def jsWs (c : Char) : Bool :=
  c == ' ' || c == '\t' || c == '\n' || c == '\r'

/-- JavaScript `.trim()`. -/
def jsTrim (s : String) : String :=
  String.mk (((s.data.dropWhile jsWs).reverse.dropWhile jsWs).reverse)

/-- JavaScript `.toLowerCase()` (ASCII; the declared-type tokens are ASCII). -/
def jsLower (s : String) : String :=
  String.mk (s.data.map Char.toLower)

/-- Does `hay` start with `needle`? -/
def leadsWith : List Char → List Char → Bool
  | [], _ => true
  | _ :: _, [] => false
  | a :: as, b :: bs => a == b && leadsWith as bs

/-- Substring containment on character lists. -/
def listHasSub (hay needle : List Char) : Bool :=
  match hay with
  | [] => needle.isEmpty
  | _ :: t => leadsWith needle hay || listHasSub t needle

/-- JavaScript `String.prototype.includes`. -/
def strContains (s sub : String) : Bool :=
  listHasSub s.data sub.data

/-- The processing clock: `month` is `getMonth() + 1` (1..12), `year` is
`getFullYear()`. -/
structure Clock where
  month : Nat
  year : Nat

/-- `String.prototype.padStart(2, '0')`. -/
def padTwo (s : String) : String :=
  if s.length ≥ 2 then s else if s.length = 1 then "0" ++ s else "00"

/-- The `MM/YYYY` stamp of `validateAndCleanData` (line 193). -/
def mmYYYY (c : Clock) : String :=
  padTwo (Nat.repr c.month) ++ "/" ++ Nat.repr c.year

/-- Canonical header fields (source line 137). -/
def headerFields : List String :=
  ["email", "github", "lastUpdated", "linkedin", "location",
   "name", "phone", "skills", "tagline", "website"]

/-- Canonical education fields (source line 155). -/
def eduFields : List String :=
  ["coursework", "degree", "endDate", "gpa", "major", "startDate", "university"]

/-- Canonical experience-entry fields (source line 172). -/
def expFields : List String :=
  ["description", "endDate", "position", "location", "employmentType",
   "startDate", "title", "url"]

/-- Canonical project-entry fields (source line 182). -/
def projFields : List String :=
  ["award", "date", "description", "endDate", "event", "organization",
   "title", "url"]

/-- Default for a missing header field: `{}` for `skills`, else `""`. -/
def hdrDefaultF (f : String) : JVal :=
  if f == "skills" then .jobj [] else .jstr ""

/-- Default for a missing education field: `[]` for `coursework`, else `""`. -/
def eduDefaultF (f : String) : JVal :=
  if f == "coursework" then .jarr [] [] else .jstr ""

/-- `if (!data[k]) data[k] = dflt;` (source lines 131-134). -/
def ensureSection (data : JVal) (k : String) (dflt : JVal) : Except JsErr JVal := do
  let v ← getProp data k
  if truthy v then pure data else setProp data k dflt

/-- The per-field backfill loop (source lines 139-147, 156-164, 174-178,
184-188): for each canonical field, if `!(field in sec)` assign the default. -/
def backfillFields (fields : List String) (dflt : String → JVal) (sec : JVal) :
    Except JsErr JVal :=
  match fields with
  | [] => .ok sec
  | f :: fs => do
      let present ← hasProp sec f
      let sec ← if present then pure sec else setProp sec f (dflt f)
      backfillFields fs dflt sec

/-- Header cleaning (source lines 136-152): backfill every header field, then
replace `skills` by `{}` when `typeof skills !== 'object' || Array.isArray`. -/
def cleanHeaderStage (data : JVal) : Except JsErr JVal := do
  let h ← getProp data "header"
  let h ← backfillFields headerFields hdrDefaultF h
  let s ← getProp h "skills"
  let h ← if jsTypeof s != "object" || isArrayV s then
            setProp h "skills" (.jobj []) else pure h
  setProp data "header" h

/-- Education cleaning (source lines 154-169): backfill every education field,
then force `coursework` to `[]` when it is not an array. -/
def cleanEducationStage (data : JVal) : Except JsErr JVal := do
  let e ← getProp data "education"
  let e ← backfillFields eduFields eduDefaultF e
  let cw ← getProp e "coursework"
  let e ← if isArrayV cw then pure e else setProp e "coursework" (.jarr [] [])
  setProp data "education" e

/-- The entry loop `for (let i = 0; i < list.length; i++) ...` of source lines
173-179 and 183-189.  On a true array it visits the elements in order and each
mutation is local to element `i`, so it is a monadic map.  On a non-empty
string, element `0` is a one-character string and the `in` operator throws.
On a plain object the loop is driven by a numeric `length` property and reads
numeric-string keys; other values have an `undefined` length, so zero
iterations run. -/
def cleanEntries (fields : List String) (v : JVal) : Except JsErr JVal :=
  match v with
  | .jarr elems props =>
      (elems.mapM (backfillFields fields (fun _ => .jstr ""))).map
        (fun cleaned => .jarr cleaned props)
  | .jstr s =>
      if s.length = 0 then .ok (.jstr s)
      else .error (.typeError "Cannot use in operator to search in a string")
  | .jobj props =>
      (match lookupProp props "length" with
       | some (.jnum n) =>
           ((List.range n.toNat).foldlM (fun pr i => do
               let entry := (lookupProp pr (Nat.repr i)).getD .jundefined
               let entry ← backfillFields fields (fun _ => .jstr "") entry
               pure (setPropList pr (Nat.repr i) entry)) props).map .jobj
       | _ => .ok (.jobj props))
  | _ => .ok v

/-- Experience or project cleaning: read the section, run the entry loop,
write the section back. -/
def cleanListStage (k : String) (fields : List String) (data : JVal) :
    Except JsErr JVal := do
  let v ← getProp data k
  let v ← cleanEntries fields v
  setProp data k v

/-- `data.header.lastUpdated = MM/YYYY` (source lines 191-193). -/
def stampStage (clock : Clock) (data : JVal) : Except JsErr JVal := do
  let h ← getProp data "header"
  let h ← setProp h "lastUpdated" (.jstr (mmYYYY clock))
  setProp data "header" h

/-- `validateAndCleanData` (source lines 129-196), stage by stage in source
order. -/
def validateAndCleanData (clock : Clock) (data : JVal) : Except JsErr JVal := do
  let data ← ensureSection data "header" (.jobj [])
  let data ← ensureSection data "education" (.jobj [])
  let data ← ensureSection data "experience" (.jarr [] [])
  let data ← ensureSection data "projects" (.jarr [] [])
  let data ← cleanHeaderStage data
  let data ← cleanEducationStage data
  let data ← cleanListStage "experience" expFields data
  let data ← cleanListStage "projects" projFields data
  stampStage clock data

/-- Which extractor `extractText` selected. -/
inductive FileRoute where
  | pdf
  | docx

/-- The format dispatch of `extractText` (source lines 116-126): lower-case
the declared type; any string containing `pdf` routes to the PDF extractor
(the two equality tests are subsumed by `includes`); otherwise exactly
`docx`/`.docx`/`doc`/`.doc` or any string containing `word` routes to the
DOCX extractor; everything else throws the unsupported-type error naming the
lower-cased token. -/
def extractTextDispatch (fileType : String) : Except JsErr FileRoute :=
  let extension := jsLower fileType
  if extension == "pdf" || extension == ".pdf" || strContains extension "pdf" then
    .ok .pdf
  else if extension == "docx" || extension == ".docx" || extension == "doc" ||
          extension == ".doc" || strContains extension "word" then
    .ok .docx
  else
    .error (.error ("Unsupported file type: " ++ extension ++
      ". Only PDF and DOCX files are supported."))

/-- One `r` element of a text item's `R` list; `T` is its encoded text
(absent models a missing `T`; the source also skips the falsy `""`). -/
structure PdfTextRun where
  T : Option String

/-- One element of a page's `Texts` list. -/
structure PdfTextItem where
  R : Option (List PdfTextRun)

/-- One element of `pdfData.Pages`. -/
structure PdfPage where
  Texts : Option (List PdfTextItem)

/-- The decoded `pdfData` container handed to the `pdfParser_dataReady`
callback. -/
structure PdfData where
  Pages : Option (List PdfPage)

/-- The text accumulation of `extractTextFromPDF` (source lines 76-97):
`text += decodeURIComponent(r.T) + " "` for every truthy run of every item of
every page with truthy `Texts`, `text += "\n"` after each such page, and a
final `.trim()`.  The `decodeURIComponent` builtin is the parameter `dec`,
applied to each run before concatenation. -/
def extractTextFromPDF (dec : String → String) (pd : PdfData) : String :=
  let text :=
    match pd.Pages with
    | none => ""
    | some pages =>
        pages.foldl (fun acc page =>
          match page.Texts with
          | none => acc
          | some items =>
              let acc := items.foldl (fun acc item =>
                match item.R with
                | none => acc
                | some rs =>
                    rs.foldl (fun acc r =>
                      match r.T with
                      | some s => if s.length = 0 then acc else acc ++ dec s ++ " "
                      | none => acc) acc) acc
              acc ++ "\n") ""
  jsTrim text

/-- The decoded texts of the kept runs of one page's items, in container
order. -/
def pdfRunTexts (dec : String → String) (items : List PdfTextItem) : List String :=
  items.foldr (fun item acc =>
    (match item.R with
     | some rs =>
         rs.filterMap (fun r =>
           r.T.bind (fun s => if s.length = 0 then none else some (dec s)))
     | none => []) ++ acc) []

/-- Join a list of strings with a separator. -/
def joinSep (sep : String) : List String → String
  | [] => ""
  | [x] => x
  | x :: xs => x ++ sep ++ joinSep sep xs

/-- Concatenate a list of strings. -/
def strJoin (xs : List String) : String :=
  xs.foldr (fun a b => a ++ b) ""

/-- Modelled from the spec: "runs are concatenated with single-space
separation within a page and newline separation between pages"; pages whose
`Texts` is absent contribute nothing, runs are filtered and decoded exactly
as in the source, and the result is trimmed.  This is the spec-side reading
used to check claim C8 against `extractTextFromPDF`. -/
def pdfSpecText (dec : String → String) (pd : PdfData) : String :=
  match pd.Pages with
  | none => ""
  | some pages =>
      jsTrim (joinSep "\n"
        ((pages.filterMap (fun pg => pg.Texts.map (pdfRunTexts dec))).map
          (joinSep " ")))

/-- Declarative form of what `extractTextFromPDF` computes: each kept run's
decoded text followed by one space, each kept page's run block followed by one
newline, and the whole trimmed. -/
def pdfAmendedText (dec : String → String) (pd : PdfData) : String :=
  match pd.Pages with
  | none => ""
  | some pages =>
      jsTrim (strJoin (pages.filterMap (fun pg =>
        pg.Texts.map (fun items =>
          strJoin ((pdfRunTexts dec items).map (fun t => t ++ " ")) ++ "\n"))))

/-- Char is an ASCII decimal digit. -/
def isDig (c : Char) : Bool :=
  '0' ≤ c && c ≤ '9'

/-- Body of a JSON string literal after the opening quote: returns the decoded
string and the remaining input after the closing quote.  Standard escapes are
handled; `\uXXXX` is decoded with `Char.ofNat` (lone surrogates, which never
occur in this pipeline, fall back to its default). -/
def parseStrBody : List Char → Option (String × List Char)
  | [] => none
  | '"' :: rest => some ("", rest)
  | '\\' :: esc =>
      (match esc with
       | 'u' :: a :: b :: c :: d :: rest =>
           let hv := fun (x : Char) =>
             if isDig x then some (x.toNat - '0'.toNat)
             else if 'a' ≤ x && x ≤ 'f' then some (x.toNat - 'a'.toNat + 10)
             else if 'A' ≤ x && x ≤ 'F' then some (x.toNat - 'A'.toNat + 10)
             else none
           match hv a, hv b, hv c, hv d with
           | some ha, some hb, some hc, some hd =>
               (parseStrBody rest).map (fun pr =>
                 (String.mk (Char.ofNat (((ha * 16 + hb) * 16 + hc) * 16 + hd) :: pr.1.data), pr.2))
           | _, _, _, _ => none
       | e :: rest =>
           let dc : Option Char :=
             if e == '"' then some '"'
             else if e == '\\' then some '\\'
             else if e == '/' then some '/'
             else if e == 'n' then some '\n'
             else if e == 't' then some '\t'
             else if e == 'r' then some '\r'
             else if e == 'b' then some (Char.ofNat 8)
             else if e == 'f' then some (Char.ofNat 12)
             else none
           dc.bind (fun ch =>
             (parseStrBody rest).map (fun pr => (String.mk (ch :: pr.1.data), pr.2)))
       | [] => none)
  | c :: rest =>
      (parseStrBody rest).map (fun pr => (String.mk (c :: pr.1.data), pr.2))

/-- Digits to a natural number, most significant first. -/
def digitsToNat (ds : List Char) : Nat :=
  ds.foldl (fun acc c => acc * 10 + (c.toNat - '0'.toNat)) 0

/-- A JSON number at the head of the input.  Only integer literals are
modelled (`validateAndCleanData` never inspects numeric magnitude and no claim
involves fractional numbers); a fraction or exponent makes the model reject. -/
def parseNumL (cs : List Char) : Option (JVal × List Char) :=
  let (neg, cs1) := match cs with
                    | '-' :: t => (true, t)
                    | _ => (false, cs)
  let ds := cs1.takeWhile isDig
  let rest := cs1.dropWhile isDig
  if ds.isEmpty then none
  else if ds.length > 1 && ds.headD '0' == '0' then none
  else match rest with
       | '.' :: _ => none
       | 'e' :: _ => none
       | 'E' :: _ => none
       | _ =>
           let n : Int := Int.ofNat (digitsToNat ds)
           some (.jnum (if neg then -n else n), rest)

/-- What `parseF` is currently parsing: a value, the remaining elements of an
array (accumulated so far), or the remaining members of an object. -/
inductive PMode where
  | val
  | elems (acc : List JVal)
  | members (acc : List (String × JVal))

/-- Skip JSON whitespace. -/
def skipWsL (cs : List Char) : List Char :=
  cs.dropWhile jsWs

/-- Fuel-driven model of the `JSON.parse` grammar. Duplicate object keys keep
their first position with the last value, as in JavaScript. -/
def parseF : Nat → PMode → List Char → Option (JVal × List Char)
  | 0, _, _ => none
  | Nat.succ fuel, .val, cs =>
      (match skipWsL cs with
       | [] => none
       | '"' :: rest => (parseStrBody rest).map (fun pr => (.jstr pr.1, pr.2))
       | '[' :: rest =>
           (match skipWsL rest with
            | ']' :: r2 => some (.jarr [] [], r2)
            | _ => parseF fuel (.elems []) rest)
       | '{' :: rest =>
           (match skipWsL rest with
            | '}' :: r2 => some (.jobj [], r2)
            | _ => parseF fuel (.members []) rest)
       | 'n' :: rest =>
           if leadsWith "ull".data rest then some (.jnull, rest.drop 3) else none
       | 't' :: rest =>
           if leadsWith "rue".data rest then some (.jbool true, rest.drop 3) else none
       | 'f' :: rest =>
           if leadsWith "alse".data rest then some (.jbool false, rest.drop 4) else none
       | c :: rest =>
           if c == '-' || isDig c then parseNumL (c :: rest) else none)
  | Nat.succ fuel, .elems acc, cs =>
      (match parseF fuel .val cs with
       | some (v, cs1) =>
           (match skipWsL cs1 with
            | ',' :: cs2 => parseF fuel (.elems (acc ++ [v])) cs2
            | ']' :: cs2 => some (.jarr (acc ++ [v]) [], cs2)
            | _ => none)
       | none => none)
  | Nat.succ fuel, .members acc, cs =>
      (match skipWsL cs with
       | '"' :: rest =>
           (match parseStrBody rest with
            | some (k, cs1) =>
                (match skipWsL cs1 with
                 | ':' :: cs2 =>
                     (match parseF fuel .val cs2 with
                      | some (v, cs3) =>
                          (match skipWsL cs3 with
                           | ',' :: cs4 => parseF fuel (.members (setPropList acc k v)) cs4
                           | '}' :: cs4 => some (.jobj (setPropList acc k v), cs4)
                           | _ => none)
                      | none => none)
                 | _ => none)
            | none => none)
       | _ => none)

/-- Model of the `JSON.parse` builtin: parse one value, then require only
trailing whitespace.  `none` models a thrown `SyntaxError`. -/
def jsonParse (s : String) : Option JVal :=
  match parseF (2 * s.length + 8) .val s.data with
  | some (v, rest) => if (skipWsL rest).isEmpty then some v else none
  | none => none

/-- `responseText.match(/\x7b[\s\S]*\x7d/)` (source line 312): the greedy
regex matches from the first opening brace to the last closing brace of the
whole text, provided that closing brace comes after the opening one. -/
def braceMatch (s : String) : Option String :=
  match s.data.findIdx? (fun c => c == '{') with
  | none => none
  | some i =>
      match s.data.reverse.findIdx? (fun c => c == '}') with
      | none => none
      | some ri =>
          let j := s.data.length - 1 - ri
          if i < j then some (String.mk ((s.data.drop i).take (j - i + 1)))
          else none

/-- The guarded region of the inner `try` (source lines 307-310): strict
`JSON.parse` of the response text followed by `validateAndCleanData`.  A
failure of either one reaches the inner `catch`. -/
def strictAttempt (clock : Clock) (responseText : String) : Except JsErr JVal := do
  let v ← match jsonParse responseText with
          | some v => Except.ok v
          | none => Except.error (.syntaxError "Unexpected token in JSON")
  validateAndCleanData clock v

/-- The response interpretation of `parseWithAnthropic` (source lines
306-319): try the strict parse-and-clean; on failure, take the greedy brace
match and parse-and-clean it, or throw `Could not extract valid JSON from API
response` when there is no match.  Errors of the fallback branch are not
caught here. -/
def interpretResponse (clock : Clock) (responseText : String) : Except JsErr JVal :=
  match strictAttempt clock responseText with
  | .ok r => .ok r
  | .error _ =>
      match braceMatch responseText with
      | some sub => do
          let v ← match jsonParse sub with
                  | some v => Except.ok v
                  | none => Except.error (.syntaxError "Unexpected token in JSON")
          validateAndCleanData clock v
      | none => .error (.error "Could not extract valid JSON from API response")

/-- `parseWithAnthropic` (source lines 198-323) with the network call
abstracted as `modelRespond` (the single request/response exchange; an
`Except.error` models a transport failure).  The response text is trimmed
(line 303), interpreted, and the outer `catch` (lines 320-322) wraps every
error thrown inside the `try` as the Anthropic-API error string. -/
def parseWithAnthropic (modelRespond : String → Except JsErr String)
    (clock : Clock) (resumeText : String) : Except JsErr JVal :=
  match (do
      let raw ← modelRespond resumeText
      interpretResponse clock (jsTrim raw) : Except JsErr JVal) with
  | .ok v => .ok v
  | .error e => .error (.error ("Error calling Anthropic API: " ++ jsErrString e))

/-- `parseResume` (source lines 325-340): dispatch on the declared type, run
the selected binary extractor (the pdf2json and mammoth decoders are external
libraries, abstracted as `pdfEx`/`docxEx` over an abstract buffer type), fail
with the insufficient-text error when the extracted text is falsy or its
trimmed length is below 50, else hand the text to `parseWithAnthropic`. -/
def parseResume {β : Type} (pdfEx docxEx : β → Except JsErr String)
    (modelRespond : String → Except JsErr String) (clock : Clock)
    (buffer : β) (fileType : String) : Except JsErr JVal := do
  let route ← extractTextDispatch fileType
  let resumeText ← match route with
                   | .pdf => pdfEx buffer
                   | .docx => docxEx buffer
  if resumeText.length = 0 ∨ (jsTrim resumeText).length < 50 then
    Except.error (.error "Could not extract sufficient text from the resume file")
  else
    parseWithAnthropic modelRespond clock resumeText

/-- Pure form of `ensureSection` on an object's property list. -/
def ensurePure (dp : List (String × JVal)) (k : String) (dflt : JVal) :
    List (String × JVal) :=
  match lookupProp dp k with
  | some v => if truthy v then dp else setPropList dp k dflt
  | none => setPropList dp k dflt

/-- Pure form of the per-field backfill loop on an object's property list. -/
def backfillList (fields : List String) (dflt : String → JVal)
    (p : List (String × JVal)) : List (String × JVal) :=
  match fields with
  | [] => p
  | f :: fs =>
      backfillList fs dflt
        (if (lookupProp p f).isSome then p else setPropList p f (dflt f))

/-- Pure form of the skills-shape coercion on the header property list. -/
def skillsFixPure (hp : List (String × JVal)) : List (String × JVal) :=
  let s := (lookupProp hp "skills").getD .jundefined
  if jsTypeof s != "object" || isArrayV s then setPropList hp "skills" (.jobj [])
  else hp

/-- Pure form of the coursework-shape coercion on the education property
list. -/
def courseworkFixPure (ep : List (String × JVal)) : List (String × JVal) :=
  if isArrayV ((lookupProp ep "coursework").getD .jundefined) then ep
  else setPropList ep "coursework" (.jarr [] [])

/-- Pure header cleaning (identity off objects; only objects reach it under
the safety hypotheses used below). -/
def specCleanHeader (h : JVal) : JVal :=
  match h with
  | .jobj hp => .jobj (skillsFixPure (backfillList headerFields hdrDefaultF hp))
  | _ => h

/-- Pure education cleaning. -/
def specCleanEdu (e : JVal) : JVal :=
  match e with
  | .jobj ep => .jobj (courseworkFixPure (backfillList eduFields eduDefaultF ep))
  | _ => e

/-- Pure cleaning of one experience/project entry. -/
def cleanEntryPure (fields : List String) (e : JVal) : JVal :=
  match e with
  | .jobj ep => .jobj (backfillList fields (fun _ => .jstr "") ep)
  | _ => e

/-- Pure cleaning of an entry list. -/
def specCleanEntries (fields : List String) (v : JVal) : JVal :=
  match v with
  | .jarr es p => .jarr (es.map (cleanEntryPure fields)) p
  | _ => v

/-- Statement helper: property of an object-like value, `undefined`
otherwise. -/
def jGet (v : JVal) (k : String) : JVal :=
  match v with
  | .jobj p => (lookupProp p k).getD .jundefined
  | .jarr _ p => (lookupProp p k).getD .jundefined
  | _ => .jundefined

/-- Statement helper: does an object-like value own the key? -/
def jHas (v : JVal) (k : String) : Bool :=
  match v with
  | .jobj p => (lookupProp p k).isSome
  | .jarr _ p => (lookupProp p k).isSome
  | _ => false

/-- Statement helper: functional property update on an object-like value. -/
def jSet (v : JVal) (k : String) (x : JVal) : JVal :=
  match v with
  | .jobj p => .jobj (setPropList p k x)
  | .jarr es p => .jarr es (setPropList p k x)
  | _ => v

/-- Statement helper: element of an array value. -/
def jIdx (v : JVal) (i : Nat) : JVal :=
  match v with
  | .jarr es _ => es.getD i .jundefined
  | _ => .jundefined

/-- Pure mirror of the whole cleaning pass except the timestamp, in source
order. -/
def coreNorm (d : JVal) : JVal :=
  match d with
  | .jobj dp =>
      let dp := ensurePure dp "header" (.jobj [])
      let dp := ensurePure dp "education" (.jobj [])
      let dp := ensurePure dp "experience" (.jarr [] [])
      let dp := ensurePure dp "projects" (.jarr [] [])
      let dp := setPropList dp "header"
        (specCleanHeader ((lookupProp dp "header").getD .jundefined))
      let dp := setPropList dp "education"
        (specCleanEdu ((lookupProp dp "education").getD .jundefined))
      let dp := setPropList dp "experience"
        (specCleanEntries expFields ((lookupProp dp "experience").getD .jundefined))
      let dp := setPropList dp "projects"
        (specCleanEntries projFields ((lookupProp dp "projects").getD .jundefined))
      .jobj dp
  | _ => d

/-- Pure mirror of the timestamp overwrite. -/
def stampPure (c : Clock) (d : JVal) : JVal :=
  jSet d "header" (jSet (jGet d "header") "lastUpdated" (.jstr (mmYYYY c)))

/-- Pure mirror of `validateAndCleanData` on safe inputs. -/
def specNormalize (c : Clock) (d : JVal) : JVal :=
  stampPure c (coreNorm d)

/-- Is the value a plain object? -/
def isObjV : JVal → Bool
  | .jobj _ => true
  | _ => false

/-- A header/education slot that cannot make the cleaning throw: absent,
falsy, or a plain object. -/
def secOk : Option JVal → Bool
  | some v => !truthy v || isObjV v
  | none => true

/-- An experience/projects slot that cannot make the cleaning throw: absent,
falsy, or an array of plain objects. -/
def entOk : Option JVal → Bool
  | some v =>
      !truthy v ||
        (match v with
         | .jarr es _ => es.all isObjV
         | _ => false)
  | none => true

/-- Safe inputs: a JSON object whose four section slots are well-shaped.  On
these the cleaning pass can throw nowhere. -/
def safeInput : JVal → Bool
  | .jobj dp =>
      secOk (lookupProp dp "header") && secOk (lookupProp dp "education") &&
      entOk (lookupProp dp "experience") && entOk (lookupProp dp "projects")
  | _ => false

/-- Every field of a canonical field set is present. -/
def allFieldsB (v : JVal) (fields : List String) : Bool :=
  fields.all (fun f => jHas v f)

/-- An entry list in which every entry carries every canonical field. -/
def entriesShaped (fields : List String) (v : JVal) : Bool :=
  match v with
  | .jarr es _ => es.all (fun e => allFieldsB e fields)
  | _ => false

/-- A fully-shaped Canonical Resume Record: all four sections present, every
canonical field of header and education present, and every entry of the two
lists carrying every canonical entry field. -/
def fullyShaped (v : JVal) : Bool :=
  jHas v "header" && jHas v "education" &&
  jHas v "experience" && jHas v "projects" &&
  isObjV (jGet v "header") && allFieldsB (jGet v "header") headerFields &&
  isObjV (jGet v "education") && allFieldsB (jGet v "education") eduFields &&
  entriesShaped expFields (jGet v "experience") &&
  entriesShaped projFields (jGet v "projects")

/-- Statement helper: is the value the JavaScript `null`? -/
def isNullV : JVal → Bool
  | .jnull => true
  | _ => false

/-- Statement helper: the payload of a string value. -/
def asStr : JVal → Option String
  | .jstr s => some s
  | _ => none

/-- Statement helper: the payload of an array of string values. -/
def asStrList : JVal → Option (List String)
  | .jarr es _ => es.mapM asStr
  | _ => none

/-- Statement helper: did the computation return normally? -/
def exOk {α : Type} : Except JsErr α → Bool
  | .ok _ => true
  | .error _ => false

/-! ### Property-list lemmas -/

theorem lookupProp_set_same (p : List (String × JVal)) (k : String) (v : JVal) :
    lookupProp (setPropList p k v) k = some v := by
  induction p with
  | nil => simp [setPropList, lookupProp]
  | cons pr rest ih =>
      obtain ⟨a, b⟩ := pr
      by_cases h : a = k
      · simp [setPropList, lookupProp, h]
      · simpa [setPropList, lookupProp, h] using ih

theorem lookupProp_set_other (p : List (String × JVal)) (k k' : String) (v : JVal)
    (hne : k' ≠ k) : lookupProp (setPropList p k v) k' = lookupProp p k' := by
  induction p with
  | nil => simp [setPropList, lookupProp, hne, Ne.symm hne]
  | cons pr rest ih =>
      obtain ⟨a, b⟩ := pr
      by_cases h : a = k
      · subst h
        simp [setPropList, lookupProp, Ne.symm hne, hne]
      · by_cases h' : a = k'
        · simp [setPropList, lookupProp, h, h', hne]
        · simpa [setPropList, lookupProp, h, h'] using ih

theorem setPropList_id (p : List (String × JVal)) (k : String) (v : JVal)
    (h : lookupProp p k = some v) : setPropList p k v = p := by
  induction p with
  | nil => simp [lookupProp] at h
  | cons pr rest ih =>
      obtain ⟨a, b⟩ := pr
      by_cases hk : a = k
      · have hb : b = v := by
          simpa [lookupProp, hk] using h
        simp [setPropList, hk, hb]
      · have ht : lookupProp rest k = some v := by
          simpa [lookupProp, hk] using h
        simp [setPropList, hk, ih ht]

theorem lookupProp_set_isSome (p : List (String × JVal)) (k k' : String) (v : JVal)
    (h : (lookupProp p k').isSome) : (lookupProp (setPropList p k v) k').isSome := by
  by_cases hne : k' = k
  · subst hne; simp [lookupProp_set_same]
  · rwa [lookupProp_set_other p k k' v hne]

/-! ### Backfill lemmas -/

theorem backfillFields_jobj (fields : List String) (dflt : String → JVal)
    (p : List (String × JVal)) :
    backfillFields fields dflt (.jobj p) = .ok (.jobj (backfillList fields dflt p)) := by
  induction fields generalizing p with
  | nil => rfl
  | cons f fs ih =>
      by_cases h : (lookupProp p f).isSome
      · simpa [backfillFields, backfillList, hasProp, h, bind, Except.bind] using ih p
      · simpa [backfillFields, backfillList, hasProp, h, bind, Except.bind, setProp]
          using ih (setPropList p f (dflt f))

theorem lookupProp_backfill (fields : List String) (dflt : String → JVal)
    (p : List (String × JVal)) (k : String) :
    lookupProp (backfillList fields dflt p) k =
      match lookupProp p k with
      | some v => some v
      | none => if k ∈ fields then some (dflt k) else none := by
  induction fields generalizing p with
  | nil =>
      cases h : lookupProp p k <;> simp [backfillList, h]
  | cons f fs ih =>
      by_cases h : (lookupProp p f).isSome
      · rw [backfillList, if_pos h, ih]
        cases hk : lookupProp p k with
        | some v => rfl
        | none =>
            have hkf : k ≠ f := by
              intro he; rw [← he, hk] at h; simp at h
            simp [List.mem_cons, hkf]
      · rw [backfillList, if_neg h]
        by_cases hkf : k = f
        · subst hkf
          rw [ih, lookupProp_set_same]
          have hk : lookupProp p k = none := by
            cases hl : lookupProp p k
            · rfl
            · rw [hl] at h; simp at h
          simp [hk]
        · rw [ih, lookupProp_set_other p f k (dflt f) hkf]
          cases hk : lookupProp p k with
          | some v => rfl
          | none => simp [List.mem_cons, hkf]

theorem lookupProp_backfill_isSome (fields : List String) (dflt : String → JVal)
    (p : List (String × JVal)) (k : String) (h : k ∈ fields) :
    (lookupProp (backfillList fields dflt p) k).isSome := by
  rw [lookupProp_backfill]
  cases hk : lookupProp p k <;> simp [h]

theorem backfillList_of_all_present (fields : List String) (dflt : String → JVal)
    (p : List (String × JVal))
    (h : ∀ f ∈ fields, (lookupProp p f).isSome) :
    backfillList fields dflt p = p := by
  induction fields with
  | nil => rfl
  | cons f fs ih =>
      rw [backfillList, if_pos (h f (List.mem_cons_self f fs))]
      exact ih (fun g hg => h g (List.mem_cons_of_mem f hg))

/-! ### Stage lemmas: on safe objects each stage is its pure mirror -/

theorem ensureSection_jobj (dp : List (String × JVal)) (k : String) (dflt : JVal) :
    ensureSection (.jobj dp) k dflt = .ok (.jobj (ensurePure dp k dflt)) := by
  cases h : lookupProp dp k with
  | none =>
      simp [ensureSection, ensurePure, getProp, h, truthy, bind, Except.bind, setProp]
  | some v =>
      by_cases ht : truthy v
      · simp [ensureSection, ensurePure, getProp, h, ht, bind, Except.bind, pure, Except.pure]
      · simp [ensureSection, ensurePure, getProp, h, ht, bind, Except.bind, setProp]

theorem lookupProp_ensure_same (dp : List (String × JVal)) (k : String) (dflt : JVal) :
    lookupProp (ensurePure dp k dflt) k =
      some (match lookupProp dp k with
            | some v => if truthy v then v else dflt
            | none => dflt) := by
  cases h : lookupProp dp k with
  | none => simp [ensurePure, h, lookupProp_set_same]
  | some v =>
      by_cases ht : truthy v
      · simp [ensurePure, h, ht]
      · simp [ensurePure, h, ht, lookupProp_set_same]

theorem lookupProp_ensure_other (dp : List (String × JVal)) (k k' : String)
    (dflt : JVal) (hne : k' ≠ k) :
    lookupProp (ensurePure dp k dflt) k' = lookupProp dp k' := by
  cases h : lookupProp dp k with
  | none => simp [ensurePure, h, lookupProp_set_other dp k k' dflt hne]
  | some v =>
      by_cases ht : truthy v
      · simp [ensurePure, h, ht]
      · simp [ensurePure, h, ht, lookupProp_set_other dp k k' dflt hne]

theorem exBind_ok {α β : Type} (a : α) (f : α → Except JsErr β) :
    (Except.ok a : Except JsErr α) >>= f = f a := rfl

theorem cleanHeaderStage_eq (dp hp : List (String × JVal))
    (h : lookupProp dp "header" = some (.jobj hp)) :
    cleanHeaderStage (.jobj dp) =
      .ok (.jobj (setPropList dp "header" (specCleanHeader (.jobj hp)))) := by
  show (do
      let hv ← getProp (.jobj dp) "header"
      let hv ← backfillFields headerFields hdrDefaultF hv
      let s ← getProp hv "skills"
      let hv ← if jsTypeof s != "object" || isArrayV s then
                setProp hv "skills" (.jobj []) else pure hv
      setProp (.jobj dp) "header" hv : Except JsErr JVal) = _
  rw [show getProp (.jobj dp) "header" = .ok (.jobj hp) by simp [getProp, h]]
  rw [exBind_ok, backfillFields_jobj, exBind_ok]
  simp only [specCleanHeader]
  generalize backfillList headerFields hdrDefaultF hp = bl
  rw [show getProp (.jobj bl) "skills" = .ok ((lookupProp bl "skills").getD .jundefined)
    from rfl]
  rw [exBind_ok, skillsFixPure]
  generalize (lookupProp bl "skills").getD .jundefined = s
  by_cases hc : (jsTypeof s != "object" || isArrayV s) = true
  · rw [if_pos hc, if_pos hc]
    rfl
  · rw [if_neg hc, if_neg hc]
    rfl

theorem cleanEducationStage_eq (dp ep : List (String × JVal))
    (h : lookupProp dp "education" = some (.jobj ep)) :
    cleanEducationStage (.jobj dp) =
      .ok (.jobj (setPropList dp "education" (specCleanEdu (.jobj ep)))) := by
  show (do
      let ev ← getProp (.jobj dp) "education"
      let ev ← backfillFields eduFields eduDefaultF ev
      let cw ← getProp ev "coursework"
      let ev ← if isArrayV cw then pure ev else setProp ev "coursework" (.jarr [] [])
      setProp (.jobj dp) "education" ev : Except JsErr JVal) = _
  rw [show getProp (.jobj dp) "education" = .ok (.jobj ep) by simp [getProp, h]]
  rw [exBind_ok, backfillFields_jobj, exBind_ok]
  simp only [specCleanEdu]
  generalize backfillList eduFields eduDefaultF ep = bl
  rw [show getProp (.jobj bl) "coursework" =
      .ok ((lookupProp bl "coursework").getD .jundefined) from rfl]
  rw [exBind_ok, courseworkFixPure]
  generalize (lookupProp bl "coursework").getD .jundefined = cw
  by_cases hc : isArrayV cw = true
  · rw [if_pos hc, if_pos hc]
    rfl
  · rw [if_neg hc, if_neg hc]
    rfl

theorem mapM_backfill_all_jobj (fields : List String) (es : List JVal)
    (h : es.all isObjV = true) :
    es.mapM (backfillFields fields (fun _ => .jstr "")) =
      .ok (es.map (cleanEntryPure fields)) := by
  induction es with
  | nil => rfl
  | cons e rest ih =>
      rw [List.all_cons, Bool.and_eq_true] at h
      obtain ⟨he, hrest⟩ := h
      cases e with
      | jobj ep =>
          rw [List.mapM_cons, backfillFields_jobj, ih hrest]
          simp [cleanEntryPure, bind, Except.bind, pure, Except.pure]
      | jundefined => simp [isObjV] at he
      | jnull => simp [isObjV] at he
      | jbool b => simp [isObjV] at he
      | jnum n => simp [isObjV] at he
      | jstr s => simp [isObjV] at he
      | jarr es2 p2 => simp [isObjV] at he

theorem cleanEntries_jarr (fields : List String) (es : List JVal)
    (props : List (String × JVal)) (h : es.all isObjV = true) :
    cleanEntries fields (.jarr es props) =
      .ok (.jarr (es.map (cleanEntryPure fields)) props) := by
  have hdef : cleanEntries fields (.jarr es props)
      = (es.mapM (backfillFields fields (fun _ => JVal.jstr ""))).map
          (fun cleaned => JVal.jarr cleaned props) := rfl
  rw [hdef, mapM_backfill_all_jobj fields es h]
  rfl

theorem cleanListStage_eq (k : String) (fields : List String)
    (dp : List (String × JVal)) (es : List JVal) (props : List (String × JVal))
    (h : lookupProp dp k = some (.jarr es props)) (hall : es.all isObjV = true) :
    cleanListStage k fields (.jobj dp) =
      .ok (.jobj (setPropList dp k (specCleanEntries fields (.jarr es props)))) := by
  simp only [cleanListStage, getProp, h, Option.getD, bind, Except.bind,
    cleanEntries_jarr fields es props hall, specCleanEntries, setProp]

theorem stampStage_eq (clock : Clock) (dp hp : List (String × JVal))
    (h : lookupProp dp "header" = some (.jobj hp)) :
    stampStage clock (.jobj dp) =
      .ok (.jobj (setPropList dp "header"
        (.jobj (setPropList hp "lastUpdated" (.jstr (mmYYYY clock)))))) := by
  simp [stampStage, getProp, h, bind, Except.bind, setProp]

/-- The value of section `k` right after `ensureSection`. -/
def secVal (o : Option JVal) (dflt : JVal) : JVal :=
  match o with
  | some v => if truthy v then v else dflt
  | none => dflt

theorem lookupProp_ensure_same_secVal (dp : List (String × JVal)) (k : String)
    (dflt : JVal) :
    lookupProp (ensurePure dp k dflt) k = some (secVal (lookupProp dp k) dflt) := by
  rw [lookupProp_ensure_same]
  cases h : lookupProp dp k <;> simp [secVal]

theorem secOk_val (o : Option JVal) (h : secOk o = true) :
    ∃ hp, secVal o (.jobj []) = .jobj hp := by
  cases o with
  | none => exact ⟨[], rfl⟩
  | some v =>
      by_cases ht : truthy v
      · have hobj : isObjV v = true := by
          simp [secOk, ht] at h
          exact h
        cases v with
        | jobj p => exact ⟨p, by simp [secVal, ht]⟩
        | jundefined => simp [isObjV] at hobj
        | jnull => simp [isObjV] at hobj
        | jbool b => simp [isObjV] at hobj
        | jnum n => simp [isObjV] at hobj
        | jstr s => simp [isObjV] at hobj
        | jarr a b => simp [isObjV] at hobj
      · exact ⟨[], by simp [secVal, ht]⟩

theorem entOk_val (o : Option JVal) (h : entOk o = true) :
    ∃ es props, secVal o (.jarr [] []) = .jarr es props ∧ es.all isObjV = true := by
  cases o with
  | none => exact ⟨[], [], rfl, rfl⟩
  | some v =>
      cases v with
      | jarr es props =>
          refine ⟨es, props, by simp [secVal, truthy], ?_⟩
          simpa [entOk, truthy] using h
      | jundefined => exact ⟨[], [], by simp [secVal, truthy], rfl⟩
      | jnull => exact ⟨[], [], by simp [secVal, truthy], rfl⟩
      | jbool b =>
          cases b with
          | false => exact ⟨[], [], by simp [secVal, truthy], rfl⟩
          | true => simp [entOk, truthy] at h
      | jnum n =>
          by_cases hn : n = 0
          · exact ⟨[], [], by simp [secVal, truthy, hn], rfl⟩
          · simp [entOk, truthy, hn] at h
      | jstr s =>
          by_cases hs : s.length = 0
          · exact ⟨[], [], by simp [secVal, truthy, hs], rfl⟩
          · simp [entOk, truthy, hs] at h
      | jobj p => simp [entOk, truthy] at h

/-- On a safe input, `validateAndCleanData` throws nowhere and returns exactly
the pure normalization `specNormalize`. -/
theorem validateAndCleanData_safe (clock : Clock) (d : JVal)
    (h : safeInput d = true) :
    validateAndCleanData clock d = .ok (specNormalize clock d) := by
  cases d with
  | jundefined => simp [safeInput] at h
  | jnull => simp [safeInput] at h
  | jbool b => simp [safeInput] at h
  | jnum n => simp [safeInput] at h
  | jstr s => simp [safeInput] at h
  | jarr es p => simp [safeInput] at h
  | jobj dp =>
    simp only [safeInput, Bool.and_eq_true] at h
    obtain ⟨⟨⟨hH, hE⟩, hX⟩, hP⟩ := h
    -- the property list after the four ensure steps
    set dp1 := ensurePure dp "header" (.jobj []) with hdp1
    set dp2 := ensurePure dp1 "education" (.jobj []) with hdp2
    set dp3 := ensurePure dp2 "experience" (.jarr [] []) with hdp3
    set dp4 := ensurePure dp3 "projects" (.jarr [] []) with hdp4
    -- section values after the ensure chain
    obtain ⟨hp, hhp⟩ := secOk_val _ hH
    have lookH : lookupProp dp4 "header" = some (.jobj hp) := by
      rw [hdp4, lookupProp_ensure_other _ _ _ _ (by decide),
          hdp3, lookupProp_ensure_other _ _ _ _ (by decide),
          hdp2, lookupProp_ensure_other _ _ _ _ (by decide),
          hdp1, lookupProp_ensure_same_secVal, hhp]
    obtain ⟨ep, hep⟩ := secOk_val _ hE
    have lookE : lookupProp dp4 "education" = some (.jobj ep) := by
      rw [hdp4, lookupProp_ensure_other _ _ _ _ (by decide),
          hdp3, lookupProp_ensure_other _ _ _ _ (by decide),
          hdp2, lookupProp_ensure_same_secVal,
          hdp1, lookupProp_ensure_other _ _ _ _ (by decide), hep]
    obtain ⟨xs, xprops, hxs, hxsall⟩ := entOk_val _ hX
    have lookX : lookupProp dp4 "experience" = some (.jarr xs xprops) := by
      rw [hdp4, lookupProp_ensure_other _ _ _ _ (by decide),
          hdp3, lookupProp_ensure_same_secVal,
          hdp2, lookupProp_ensure_other _ _ _ _ (by decide),
          hdp1, lookupProp_ensure_other _ _ _ _ (by decide), hxs]
    obtain ⟨ps, pprops, hps, hpsall⟩ := entOk_val _ hP
    have lookP : lookupProp dp4 "projects" = some (.jarr ps pprops) := by
      rw [hdp4, lookupProp_ensure_same_secVal,
          hdp3, lookupProp_ensure_other _ _ _ _ (by decide),
          hdp2, lookupProp_ensure_other _ _ _ _ (by decide),
          hdp1, lookupProp_ensure_other _ _ _ _ (by decide), hps]
    -- write-back lists of the four cleaning stages
    set dp5 := setPropList dp4 "header" (specCleanHeader (.jobj hp)) with hdp5
    set dp6 := setPropList dp5 "education" (specCleanEdu (.jobj ep)) with hdp6
    set dp7 := setPropList dp6 "experience"
      (specCleanEntries expFields (.jarr xs xprops)) with hdp7
    set dp8 := setPropList dp7 "projects"
      (specCleanEntries projFields (.jarr ps pprops)) with hdp8
    have lookE5 : lookupProp dp5 "education" = some (.jobj ep) := by
      rw [hdp5, lookupProp_set_other _ _ _ _ (by decide), lookE]
    have lookX6 : lookupProp dp6 "experience" = some (.jarr xs xprops) := by
      rw [hdp6, lookupProp_set_other _ _ _ _ (by decide),
          hdp5, lookupProp_set_other _ _ _ _ (by decide), lookX]
    have lookP7 : lookupProp dp7 "projects" = some (.jarr ps pprops) := by
      rw [hdp7, lookupProp_set_other _ _ _ _ (by decide),
          hdp6, lookupProp_set_other _ _ _ _ (by decide),
          hdp5, lookupProp_set_other _ _ _ _ (by decide), lookP]
    have lookH8 : lookupProp dp8 "header" = some (specCleanHeader (.jobj hp)) := by
      rw [hdp8, lookupProp_set_other _ _ _ _ (by decide),
          hdp7, lookupProp_set_other _ _ _ _ (by decide),
          hdp6, lookupProp_set_other _ _ _ _ (by decide),
          hdp5, lookupProp_set_same]
    obtain ⟨hq, hhq⟩ : ∃ hq, specCleanHeader (.jobj hp) = JVal.jobj hq :=
      ⟨_, rfl⟩
    -- the left-hand side, stage by stage
    show (do
        let d1 ← ensureSection (.jobj dp) "header" (.jobj [])
        let d2 ← ensureSection d1 "education" (.jobj [])
        let d3 ← ensureSection d2 "experience" (.jarr [] [])
        let d4 ← ensureSection d3 "projects" (.jarr [] [])
        let d5 ← cleanHeaderStage d4
        let d6 ← cleanEducationStage d5
        let d7 ← cleanListStage "experience" expFields d6
        let d8 ← cleanListStage "projects" projFields d7
        stampStage clock d8 : Except JsErr JVal) = _
    rw [ensureSection_jobj, exBind_ok, ensureSection_jobj, exBind_ok,
        ensureSection_jobj, exBind_ok, ensureSection_jobj, exBind_ok,
        ← hdp1, ← hdp2, ← hdp3, ← hdp4,
        cleanHeaderStage_eq dp4 hp lookH, exBind_ok, ← hdp5,
        cleanEducationStage_eq dp5 ep lookE5, exBind_ok, ← hdp6,
        cleanListStage_eq "experience" expFields dp6 xs xprops lookX6 hxsall,
        exBind_ok, ← hdp7,
        cleanListStage_eq "projects" projFields dp7 ps pprops lookP7 hpsall,
        exBind_ok, ← hdp8]
    rw [hhq] at lookH8
    rw [stampStage_eq clock dp8 hq lookH8]
    -- the right-hand side reduces to the same list
    have hcore : coreNorm (.jobj dp) = .jobj dp8 := by
      simp only [coreNorm]
      rw [← hdp1, ← hdp2, ← hdp3, ← hdp4, lookH, Option.getD_some, ← hdp5,
          lookE5, Option.getD_some, ← hdp6, lookX6, Option.getD_some, ← hdp7,
          lookP7, Option.getD_some, ← hdp8]
    have hstamp : stampPure clock (.jobj dp8) =
        .jobj (setPropList dp8 "header"
          (.jobj (setPropList hq "lastUpdated" (.jstr (mmYYYY clock))))) := by
      simp only [stampPure, jGet, jSet, lookH8, Option.getD_some]
    rw [specNormalize, hcore, hstamp]

/-! ### Generic `Except` inversion -/

theorem exBind_inv {α β : Type} (a : Except JsErr α) (f : α → Except JsErr β)
    (b : β) (h : a >>= f = .ok b) : ∃ x, a = .ok x ∧ f x = .ok b := by
  cases a with
  | ok x => exact ⟨x, rfl, h⟩
  | error e => exact absurd h (by simp [bind, Except.bind])

/-! ### Claim C5: format dispatch -/

/-- The amended dispatch characterization: `pdf` as a substring always routes
to the PDF extractor; without a `pdf` substring, only the exact lower-cased
tokens `docx`, `.docx`, `doc`, `.doc` or a `word` substring route to the DOCX
extractor; everything else throws the unsupported-type error naming the
lower-cased token. -/
theorem c5_dispatch_characterization (ft : String) :
    (strContains (jsLower ft) "pdf" = true → extractTextDispatch ft = .ok .pdf) ∧
    (strContains (jsLower ft) "pdf" = false →
      ((jsLower ft = "docx" ∨ jsLower ft = ".docx" ∨ jsLower ft = "doc" ∨
        jsLower ft = ".doc" ∨ strContains (jsLower ft) "word" = true) →
          extractTextDispatch ft = .ok .docx)) ∧
    (strContains (jsLower ft) "pdf" = false →
      ¬(jsLower ft = "docx" ∨ jsLower ft = ".docx" ∨ jsLower ft = "doc" ∨
        jsLower ft = ".doc" ∨ strContains (jsLower ft) "word" = true) →
      extractTextDispatch ft = .error (.error ("Unsupported file type: " ++
        jsLower ft ++ ". Only PDF and DOCX files are supported."))) := by
  refine ⟨fun hpdf => ?_, fun hnp hdoc => ?_, fun hnp hnd => ?_⟩
  · simp [extractTextDispatch, hpdf]
  · have hne1 : jsLower ft ≠ "pdf" := by
      intro he; rw [he] at hnp; exact absurd hnp (by decide)
    have hne2 : jsLower ft ≠ ".pdf" := by
      intro he; rw [he] at hnp; exact absurd hnp (by decide)
    rcases hdoc with h | h | h | h | h <;>
      simp [extractTextDispatch, hnp, hne1, hne2, h] <;> decide
  · have hne1 : jsLower ft ≠ "pdf" := by
      intro he; rw [he] at hnp; exact absurd hnp (by decide)
    have hne2 : jsLower ft ≠ ".pdf" := by
      intro he; rw [he] at hnp; exact absurd hnp (by decide)
    push_neg at hnd
    obtain ⟨h1, h2, h3, h4, h5⟩ := hnd
    simp [extractTextDispatch, hnp, hne1, hne2, h1, h2, h3, h4, h5]

/-- Witness for the dispatch characterization at concrete tokens. -/
theorem c5_dispatch_characterization_witness :
    extractTextDispatch "application/pdf" = .ok .pdf ∧
    extractTextDispatch "application/msword" = .ok .docx ∧
    extractTextDispatch "txt" = .error (.error
      "Unsupported file type: txt. Only PDF and DOCX files are supported.") :=
  ⟨(c5_dispatch_characterization "application/pdf").1 (by decide),
   ((c5_dispatch_characterization "application/msword").2.1 (by decide)
     (Or.inr (Or.inr (Or.inr (Or.inr (by decide)))))),
   ((c5_dispatch_characterization "txt").2.2 (by decide)
     (by decide))⟩

/-- Counterexample to claim C5 as stated: `"xdocx"` contains the substring
`docx`, yet the dispatcher rejects it as unsupported instead of routing it to
the DOCX extractor, because the DOCX arm tests `docx`/`doc` by equality, not
by substring. -/
theorem c5_counterexample :
    strContains "xdocx" "docx" = true ∧
    extractTextDispatch "xdocx" ≠ .ok .docx ∧
    extractTextDispatch "xdocx" = .error (.error
      "Unsupported file type: xdocx. Only PDF and DOCX files are supported.") := by
  refine ⟨by decide, ?_, rfl⟩
  intro h
  exact Except.noConfusion h

/-! ### Claim C6: insufficient-text guard -/

/-- Whenever the declared type dispatches to some extractor and the extracted
text's trimmed length is below 50, `parseResume` fails with the
insufficient-text error, for every model-response function — so no model
request is constructed or issued. -/
theorem c6_insufficient_text {β : Type} (pdfEx docxEx : β → Except JsErr String)
    (modelRespond : String → Except JsErr String) (clock : Clock) (buffer : β)
    (ft : String) (route : FileRoute) (text : String)
    (hroute : extractTextDispatch ft = .ok route)
    (hex : (match route with
            | .pdf => pdfEx buffer
            | .docx => docxEx buffer) = .ok text)
    (hshort : (jsTrim text).length < 50) :
    parseResume pdfEx docxEx modelRespond clock buffer ft =
      .error (.error "Could not extract sufficient text from the resume file") := by
  simp only [parseResume]
  rw [hroute, exBind_ok]
  cases route with
  | pdf =>
      rw [show pdfEx buffer = Except.ok text from hex, exBind_ok,
          if_pos (Or.inr hshort)]
  | docx =>
      rw [show docxEx buffer = Except.ok text from hex, exBind_ok,
          if_pos (Or.inr hshort)]

/-- Witness: a DOCX route whose extractor returns a short text fails with the
insufficient-text error. -/
theorem c6_insufficient_text_witness :
    parseResume (β := Unit) (fun _ => .ok "") (fun _ => .ok "too short")
      (fun _ => .ok "irrelevant") ⟨1, 2024⟩ () "docx" =
    .error (.error "Could not extract sufficient text from the resume file") :=
  c6_insufficient_text (fun _ => .ok "") (fun _ => .ok "too short")
    (fun _ => .ok "irrelevant") ⟨1, 2024⟩ () "docx" .docx "too short"
    rfl rfl (by decide)

/-! ### Claim C4: the lastUpdated stamp -/

theorem setProp_inv (v : JVal) (k : String) (x out : JVal)
    (h : setProp v k x = .ok out) : out = jSet v k x ∧ jHas (jSet v k x) k = true := by
  cases v with
  | jobj p =>
      refine ⟨by simpa [setProp, jSet] using h.symm, ?_⟩
      simp [jSet, jHas, lookupProp_set_same]
  | jarr es p =>
      refine ⟨by simpa [setProp, jSet] using h.symm, ?_⟩
      simp [jSet, jHas, lookupProp_set_same]
  | jundefined => simp [setProp] at h
  | jnull => simp [setProp] at h
  | jbool b => simp [setProp] at h
  | jnum n => simp [setProp] at h
  | jstr s => simp [setProp] at h

theorem jGet_jSet_same_of_has (v : JVal) (k : String) (x : JVal)
    (h : jHas (jSet v k x) k = true) : jGet (jSet v k x) k = x := by
  cases v with
  | jobj p => simp [jSet, jGet, lookupProp_set_same]
  | jarr es p => simp [jSet, jGet, lookupProp_set_same]
  | jundefined => simp [jSet, jHas] at h
  | jnull => simp [jSet, jHas] at h
  | jbool b => simp [jSet, jHas] at h
  | jnum n => simp [jSet, jHas] at h
  | jstr s => simp [jSet, jHas] at h

theorem stampStage_inv (clock : Clock) (x out : JVal)
    (h : stampStage clock x = .ok out) :
    jGet (jGet out "header") "lastUpdated" = .jstr (mmYYYY clock) := by
  simp only [stampStage] at h
  obtain ⟨hv, hhv, h⟩ := exBind_inv _ _ _ h
  obtain ⟨hv2, hhv2, h⟩ := exBind_inv _ _ _ h
  obtain ⟨ho, hhhv2⟩ := setProp_inv _ _ _ _ hhv2
  obtain ⟨ho2, hout⟩ := setProp_inv _ _ _ _ h
  subst ho ho2
  rw [jGet_jSet_same_of_has _ _ _ hout]
  exact jGet_jSet_same_of_has _ _ _ hhhv2

theorem padTwo_month_length : ∀ m < 13, 1 ≤ m → (padTwo (Nat.repr m)).length = 2 := by
  decide

set_option maxHeartbeats 4000000 in
set_option maxRecDepth 10000 in
theorem repr_year_length_aux :
    ∀ k < 9, ∀ y < 1000, (Nat.repr ((k + 1) * 1000 + y)).length = 4 := by
  decide

theorem repr_year_length (y : Nat) (h1 : 1000 ≤ y) (h2 : y < 10000) :
    (Nat.repr y).length = 4 := by
  have hk : y / 1000 - 1 < 9 := by omega
  have hy : y % 1000 < 1000 := Nat.mod_lt _ (by norm_num)
  have hrepr := repr_year_length_aux (y / 1000 - 1) hk (y % 1000) hy
  have he : (y / 1000 - 1 + 1) * 1000 + y % 1000 = y := by omega
  rwa [he] at hrepr

/-- Claim C4: whenever `validateAndCleanData` returns, the returned record's
`header.lastUpdated` is the `MM/YYYY` stamp of the processing clock — the
month rendered as two zero-padded digits, a slash, the four-digit year —
regardless of what the input carried in that field. -/
theorem c4_lastUpdated_stamp (clock : Clock) (data out : JVal)
    (h : validateAndCleanData clock data = .ok out)
    (hm1 : 1 ≤ clock.month) (hm2 : clock.month ≤ 12)
    (hy1 : 1000 ≤ clock.year) (hy2 : clock.year < 10000) :
    jGet (jGet out "header") "lastUpdated" = .jstr (mmYYYY clock) ∧
    mmYYYY clock = padTwo (Nat.repr clock.month) ++ "/" ++ Nat.repr clock.year ∧
    (padTwo (Nat.repr clock.month)).length = 2 ∧
    (Nat.repr clock.year).length = 4 := by
  refine ⟨?_, rfl, padTwo_month_length clock.month (by omega) hm1,
    repr_year_length clock.year hy1 hy2⟩
  simp only [validateAndCleanData] at h
  obtain ⟨d1, _, h⟩ := exBind_inv _ _ _ h
  obtain ⟨d2, _, h⟩ := exBind_inv _ _ _ h
  obtain ⟨d3, _, h⟩ := exBind_inv _ _ _ h
  obtain ⟨d4, _, h⟩ := exBind_inv _ _ _ h
  obtain ⟨d5, _, h⟩ := exBind_inv _ _ _ h
  obtain ⟨d6, _, h⟩ := exBind_inv _ _ _ h
  obtain ⟨d7, _, h⟩ := exBind_inv _ _ _ h
  obtain ⟨d8, _, h⟩ := exBind_inv _ _ _ h
  exact stampStage_inv clock d8 out h

/-- Witness: normalizing the from-scratch empty object at the frozen clock
11/2026 stamps `header.lastUpdated` with `"11/2026"`. -/
theorem c4_lastUpdated_stamp_witness :
    jGet (jGet (specNormalize ⟨11, 2026⟩ (.jobj [])) "header") "lastUpdated" =
      .jstr (mmYYYY ⟨11, 2026⟩) ∧ mmYYYY ⟨11, 2026⟩ = "11/2026" :=
  ⟨(c4_lastUpdated_stamp ⟨11, 2026⟩ (.jobj [])
      (specNormalize ⟨11, 2026⟩ (.jobj []))
      (validateAndCleanData_safe ⟨11, 2026⟩ (.jobj []) (by decide))
      (by decide) (by decide) (by decide) (by decide)).1,
   rfl⟩

/-! ### Claim C8: PDF text assembly -/

theorem strJoin_append (xs ys : List String) :
    strJoin (xs ++ ys) = strJoin xs ++ strJoin ys := by
  induction xs with
  | nil => exact (String.empty_append (strJoin ys)).symm
  | cons x xs ih =>
      show x ++ strJoin (xs ++ ys) = (x ++ strJoin xs) ++ strJoin ys
      rw [ih, String.append_assoc]

theorem pdf_runs_fold (dec : String → String) (rs : List PdfTextRun) (acc : String) :
    rs.foldl (fun acc r =>
      match r.T with
      | some s => if s.length = 0 then acc else acc ++ dec s ++ " "
      | none => acc) acc
    = acc ++ strJoin ((rs.filterMap (fun r =>
        r.T.bind (fun s => if s.length = 0 then none else some (dec s)))).map
          (fun t => t ++ " ")) := by
  induction rs generalizing acc with
  | nil => simp [strJoin, String.append_empty]
  | cons r rest ih =>
      cases hT : r.T with
      | none => simp [hT, ih]
      | some s =>
          by_cases hs : s.length = 0
          · simp [hT, hs, ih]
          · rw [List.foldl_cons]
            simp only [hT, if_neg hs]
            rw [ih (acc ++ dec s ++ " ")]
            simp [List.filterMap_cons, hT, hs, strJoin, String.append_assoc]

theorem pdf_items_fold (dec : String → String) (items : List PdfTextItem)
    (acc : String) :
    items.foldl (fun acc item =>
      match item.R with
      | none => acc
      | some rs =>
          rs.foldl (fun acc r =>
            match r.T with
            | some s => if s.length = 0 then acc else acc ++ dec s ++ " "
            | none => acc) acc) acc
    = acc ++ strJoin ((pdfRunTexts dec items).map (fun t => t ++ " ")) := by
  induction items generalizing acc with
  | nil => simp [pdfRunTexts, strJoin, String.append_empty]
  | cons item rest ih =>
      cases hR : item.R with
      | none => simp [hR, ih, pdfRunTexts]
      | some rs =>
          rw [List.foldl_cons]
          simp only [hR]
          rw [pdf_runs_fold, ih]
          simp [pdfRunTexts, hR, List.map_append, strJoin_append,
            String.append_assoc]

theorem pdf_pages_fold (dec : String → String) (pages : List PdfPage)
    (acc : String) :
    pages.foldl (fun acc page =>
      match page.Texts with
      | none => acc
      | some items =>
          (items.foldl (fun acc item =>
            match item.R with
            | none => acc
            | some rs =>
                rs.foldl (fun acc r =>
                  match r.T with
                  | some s => if s.length = 0 then acc else acc ++ dec s ++ " "
                  | none => acc) acc) acc) ++ "\n") acc
    = acc ++ strJoin (pages.filterMap (fun pg =>
        pg.Texts.map (fun items =>
          strJoin ((pdfRunTexts dec items).map (fun t => t ++ " ")) ++ "\n"))) := by
  induction pages generalizing acc with
  | nil => simp [strJoin, String.append_empty]
  | cons page rest ih =>
      cases hp : page.Texts with
      | none => simp [hp, ih]
      | some items =>
          rw [List.foldl_cons]
          simp only [hp]
          rw [pdf_items_fold, ih]
          simp [hp, strJoin, String.append_assoc]

/-- The amended claim C8: the extracted text is obtained by appending one
space after each kept decoded run, one newline after each kept page's run
block, and trimming the result — so within a page runs are single-space
separated, and two consecutive pages are separated by a space followed by a
newline (the last run's trailing space survives before each page break). -/
theorem c8_pdf_text_amended (dec : String → String) (pd : PdfData) :
    extractTextFromPDF dec pd = pdfAmendedText dec pd := by
  cases hp : pd.Pages with
  | none =>
      simp only [extractTextFromPDF, pdfAmendedText, hp]
      rfl
  | some pages =>
      simp only [extractTextFromPDF, pdfAmendedText, hp]
      rw [pdf_pages_fold]
      rw [String.empty_append]

/-- The two-page sample container used by the C8 counterexample: runs
`a`, `b` on page one and `c` on page two. -/
def pdfTwoPages : PdfData :=
  ⟨some [⟨some [⟨some [⟨some "a"⟩, ⟨some "b"⟩]⟩]⟩,
         ⟨some [⟨some [⟨some "c"⟩]⟩]⟩]⟩

/-- Counterexample to claim C8 as stated: on a two-page container with runs
`a`,`b` on page one and `c` on page two, the source produces `"a b \nc"` —
page one's block ends with a trailing space before the newline — while
"runs separated by a single space within a page and pages separated by a
newline" reads `"a b\nc"`. -/
theorem c8_counterexample :
    extractTextFromPDF (fun s => s) pdfTwoPages = "a b \nc" ∧
    pdfSpecText (fun s => s) pdfTwoPages = "a b\nc" ∧
    extractTextFromPDF (fun s => s) pdfTwoPages ≠
      pdfSpecText (fun s => s) pdfTwoPages := by
  refine ⟨rfl, rfl, ?_⟩
  rw [show extractTextFromPDF (fun s => s) pdfTwoPages = "a b \nc" from rfl,
      show pdfSpecText (fun s => s) pdfTwoPages = "a b\nc" from rfl]
  decide

/-! ### Claim C7: response interpretation and error wrapping -/

/-- The amended claim C7, for a model call that returns `raw`: (a) if the
strict parse-and-clean of the trimmed text succeeds, its record is returned;
(b) if it fails and the text has no brace match, the interpreter's
`Could not extract valid JSON from API response` error — which carries no
excerpt of the raw text — is caught by the enclosing handler and re-wrapped
as the Anthropic-API error string; (c) if it fails and the greedy
first-`{`-to-last-`}` substring parses and cleans, that record is returned;
(d) if the matched substring does not parse, the `SyntaxError` is likewise
re-wrapped. -/
theorem c7_interpret_amended (clock : Clock) (txt raw : String) :
    (∀ r, strictAttempt clock (jsTrim raw) = .ok r →
        parseWithAnthropic (fun _ => .ok raw) clock txt = .ok r) ∧
    (∀ e, strictAttempt clock (jsTrim raw) = .error e →
        braceMatch (jsTrim raw) = none →
        parseWithAnthropic (fun _ => .ok raw) clock txt =
          .error (.error
            "Error calling Anthropic API: Error: Could not extract valid JSON from API response")) ∧
    (∀ e sub v r, strictAttempt clock (jsTrim raw) = .error e →
        braceMatch (jsTrim raw) = some sub → jsonParse sub = some v →
        validateAndCleanData clock v = .ok r →
        parseWithAnthropic (fun _ => .ok raw) clock txt = .ok r) ∧
    (∀ e sub, strictAttempt clock (jsTrim raw) = .error e →
        braceMatch (jsTrim raw) = some sub → jsonParse sub = none →
        parseWithAnthropic (fun _ => .ok raw) clock txt =
          .error (.error
            "Error calling Anthropic API: SyntaxError: Unexpected token in JSON")) := by
  have hm : parseWithAnthropic (fun _ => Except.ok raw) clock txt =
      match interpretResponse clock (jsTrim raw) with
      | .ok v => .ok v
      | .error e =>
          .error (.error ("Error calling Anthropic API: " ++ jsErrString e)) := rfl
  refine ⟨fun r hs => ?_, fun e hs hb => ?_, fun e sub v r hs hb hp hc => ?_,
    fun e sub hs hb hp => ?_⟩
  · rw [hm]
    simp only [interpretResponse, hs]
  · rw [hm]
    simp only [interpretResponse, hs, hb]
    rfl
  · rw [hm]
    simp only [interpretResponse, hs, hb, hp, exBind_ok, hc]
  · rw [hm]
    simp only [interpretResponse, hs, hb, hp]
    rfl

/-- Witness for the amended C7 at a concrete prose-only response. -/
theorem c7_interpret_amended_witness :
    parseWithAnthropic (fun _ => .ok "The model response contains no JSON at all.")
      ⟨1, 2024⟩ "resume text" =
    .error (.error
      "Error calling Anthropic API: Error: Could not extract valid JSON from API response") :=
  (c7_interpret_amended ⟨1, 2024⟩ "resume text"
    "The model response contains no JSON at all.").2.1
    (.syntaxError "Unexpected token in JSON") rfl rfl

/-- Counterexample to claim C7 as stated: on a prose-only response the
interpreter's typed error is caught by the surrounding handler and converted
into the Anthropic-API error string, and the surfaced message carries no
excerpt of the raw model text. -/
theorem c7_counterexample :
    interpretResponse ⟨1, 2024⟩
        (jsTrim "The model response contains no JSON at all.") =
      .error (.error "Could not extract valid JSON from API response") ∧
    parseWithAnthropic (fun _ => .ok "The model response contains no JSON at all.")
        ⟨1, 2024⟩ "resume text" =
      .error (.error
        "Error calling Anthropic API: Error: Could not extract valid JSON from API response") ∧
    strContains
      "Error calling Anthropic API: Error: Could not extract valid JSON from API response"
      "The model response contains no JSON at all." = false := by
  exact ⟨rfl, rfl, by decide⟩

/-! ### Characterization of the pure cleaning pieces -/

theorem lookupProp_skillsFix_other (hp : List (String × JVal)) (k : String)
    (h : k ≠ "skills") :
    lookupProp (skillsFixPure hp) k = lookupProp hp k := by
  rw [skillsFixPure]
  split
  · exact lookupProp_set_other hp "skills" k (.jobj []) h
  · rfl

theorem lookupProp_skillsFix_skills (hp : List (String × JVal)) :
    lookupProp (skillsFixPure hp) "skills" =
      some (if jsTypeof ((lookupProp hp "skills").getD .jundefined) != "object" ||
              isArrayV ((lookupProp hp "skills").getD .jundefined)
            then .jobj [] else (lookupProp hp "skills").getD .jundefined) := by
  rw [skillsFixPure]
  by_cases hc : (jsTypeof ((lookupProp hp "skills").getD .jundefined) != "object" ||
      isArrayV ((lookupProp hp "skills").getD .jundefined)) = true
  · rw [if_pos hc, if_pos hc, lookupProp_set_same]
  · rw [if_neg hc, if_neg hc]
    cases hl : lookupProp hp "skills" with
    | some v => simp [hl]
    | none =>
        rw [hl] at hc
        simp [jsTypeof] at hc

theorem lookupProp_skillsFix_isSome (hp : List (String × JVal)) (k : String)
    (h : (lookupProp hp k).isSome = true) :
    (lookupProp (skillsFixPure hp) k).isSome = true := by
  rw [skillsFixPure]
  split
  · exact lookupProp_set_isSome hp "skills" k (.jobj []) h
  · exact h

theorem lookupProp_cwFix_other (ep : List (String × JVal)) (k : String)
    (h : k ≠ "coursework") :
    lookupProp (courseworkFixPure ep) k = lookupProp ep k := by
  rw [courseworkFixPure]
  split
  · rfl
  · exact lookupProp_set_other ep "coursework" k (.jarr [] []) h

theorem lookupProp_cwFix_cw (ep : List (String × JVal)) :
    lookupProp (courseworkFixPure ep) "coursework" =
      some (if isArrayV ((lookupProp ep "coursework").getD .jundefined)
            then (lookupProp ep "coursework").getD .jundefined else .jarr [] []) := by
  rw [courseworkFixPure]
  by_cases hc : isArrayV ((lookupProp ep "coursework").getD .jundefined) = true
  · rw [if_pos hc, if_pos hc]
    cases hl : lookupProp ep "coursework" with
    | some v => simp [hl]
    | none =>
        rw [hl] at hc
        simp [isArrayV] at hc
  · rw [if_neg hc, if_neg hc, lookupProp_set_same]

theorem lookupProp_cwFix_isSome (ep : List (String × JVal)) (k : String)
    (h : (lookupProp ep k).isSome = true) :
    (lookupProp (courseworkFixPure ep) k).isSome = true := by
  rw [courseworkFixPure]
  split
  · exact h
  · exact lookupProp_set_isSome ep "coursework" k (.jarr [] []) h

theorem cleanEntryPure_field (fields : List String) (ep : List (String × JVal))
    (f : String) (hf : f ∈ fields) :
    jGet (cleanEntryPure fields (.jobj ep)) f =
      (if jHas (.jobj ep) f then jGet (.jobj ep) f else .jstr "") := by
  simp only [cleanEntryPure, jGet, jHas]
  rw [lookupProp_backfill]
  cases hl : lookupProp ep f with
  | some v => simp [hl]
  | none => simp [hl, hf]

/-- The input header slot as the source sees it after the ensure step. -/
def headerIn (d : JVal) : JVal :=
  if truthy (jGet d "header") then jGet d "header" else .jobj []

/-- The input education slot after the ensure step. -/
def eduIn (d : JVal) : JVal :=
  if truthy (jGet d "education") then jGet d "education" else .jobj []

/-- The input experience slot after the ensure step. -/
def expIn (d : JVal) : JVal :=
  if truthy (jGet d "experience") then jGet d "experience" else .jarr [] []

/-- The input projects slot after the ensure step. -/
def projIn (d : JVal) : JVal :=
  if truthy (jGet d "projects") then jGet d "projects" else .jarr [] []

theorem secVal_eq_in (dp : List (String × JVal)) (k : String) (dflt : JVal) :
    (if truthy (jGet (.jobj dp) k) then jGet (.jobj dp) k else dflt) =
      secVal (lookupProp dp k) dflt := by
  cases hl : lookupProp dp k with
  | some v => simp [jGet, hl, secVal]
  | none => simp [jGet, hl, secVal, truthy]

/-! ### Top-level sections of the pure normalization -/

theorem specNormalize_sections (clock : Clock) (dp hp ep : List (String × JVal))
    (xs ps : List JVal) (xprops pprops : List (String × JVal))
    (hhp : secVal (lookupProp dp "header") (.jobj []) = .jobj hp)
    (hep : secVal (lookupProp dp "education") (.jobj []) = .jobj ep)
    (hxs : secVal (lookupProp dp "experience") (.jarr [] []) = .jarr xs xprops)
    (hps : secVal (lookupProp dp "projects") (.jarr [] []) = .jarr ps pprops) :
    ∃ op, specNormalize clock (.jobj dp) = .jobj op ∧
      lookupProp op "header" = some (.jobj (setPropList
        (skillsFixPure (backfillList headerFields hdrDefaultF hp))
        "lastUpdated" (.jstr (mmYYYY clock)))) ∧
      lookupProp op "education" = some (.jobj
        (courseworkFixPure (backfillList eduFields eduDefaultF ep))) ∧
      lookupProp op "experience" =
        some (.jarr (xs.map (cleanEntryPure expFields)) xprops) ∧
      lookupProp op "projects" =
        some (.jarr (ps.map (cleanEntryPure projFields)) pprops) := by
  set dp1 := ensurePure dp "header" (.jobj []) with hdp1
  set dp2 := ensurePure dp1 "education" (.jobj []) with hdp2
  set dp3 := ensurePure dp2 "experience" (.jarr [] []) with hdp3
  set dp4 := ensurePure dp3 "projects" (.jarr [] []) with hdp4
  have lookH : lookupProp dp4 "header" = some (.jobj hp) := by
    rw [hdp4, lookupProp_ensure_other _ _ _ _ (by decide),
        hdp3, lookupProp_ensure_other _ _ _ _ (by decide),
        hdp2, lookupProp_ensure_other _ _ _ _ (by decide),
        hdp1, lookupProp_ensure_same_secVal, hhp]
  have lookE : lookupProp dp4 "education" = some (.jobj ep) := by
    rw [hdp4, lookupProp_ensure_other _ _ _ _ (by decide),
        hdp3, lookupProp_ensure_other _ _ _ _ (by decide),
        hdp2, lookupProp_ensure_same_secVal,
        hdp1, lookupProp_ensure_other _ _ _ _ (by decide), hep]
  have lookX : lookupProp dp4 "experience" = some (.jarr xs xprops) := by
    rw [hdp4, lookupProp_ensure_other _ _ _ _ (by decide),
        hdp3, lookupProp_ensure_same_secVal,
        hdp2, lookupProp_ensure_other _ _ _ _ (by decide),
        hdp1, lookupProp_ensure_other _ _ _ _ (by decide), hxs]
  have lookP : lookupProp dp4 "projects" = some (.jarr ps pprops) := by
    rw [hdp4, lookupProp_ensure_same_secVal,
        hdp3, lookupProp_ensure_other _ _ _ _ (by decide),
        hdp2, lookupProp_ensure_other _ _ _ _ (by decide),
        hdp1, lookupProp_ensure_other _ _ _ _ (by decide), hps]
  set dp5 := setPropList dp4 "header" (specCleanHeader (.jobj hp)) with hdp5
  set dp6 := setPropList dp5 "education" (specCleanEdu (.jobj ep)) with hdp6
  set dp7 := setPropList dp6 "experience"
    (specCleanEntries expFields (.jarr xs xprops)) with hdp7
  set dp8 := setPropList dp7 "projects"
    (specCleanEntries projFields (.jarr ps pprops)) with hdp8
  have lookE5 : lookupProp dp5 "education" = some (.jobj ep) := by
    rw [hdp5, lookupProp_set_other _ _ _ _ (by decide), lookE]
  have lookX6 : lookupProp dp6 "experience" = some (.jarr xs xprops) := by
    rw [hdp6, lookupProp_set_other _ _ _ _ (by decide),
        hdp5, lookupProp_set_other _ _ _ _ (by decide), lookX]
  have lookP7 : lookupProp dp7 "projects" = some (.jarr ps pprops) := by
    rw [hdp7, lookupProp_set_other _ _ _ _ (by decide),
        hdp6, lookupProp_set_other _ _ _ _ (by decide),
        hdp5, lookupProp_set_other _ _ _ _ (by decide), lookP]
  have lookH8 : lookupProp dp8 "header" = some (specCleanHeader (.jobj hp)) := by
    rw [hdp8, lookupProp_set_other _ _ _ _ (by decide),
        hdp7, lookupProp_set_other _ _ _ _ (by decide),
        hdp6, lookupProp_set_other _ _ _ _ (by decide),
        hdp5, lookupProp_set_same]
  have hcore : coreNorm (.jobj dp) = .jobj dp8 := by
    simp only [coreNorm]
    rw [← hdp1, ← hdp2, ← hdp3, ← hdp4, lookH, Option.getD_some, ← hdp5,
        lookE5, Option.getD_some, ← hdp6, lookX6, Option.getD_some, ← hdp7,
        lookP7, Option.getD_some, ← hdp8]
  have hstamp : specNormalize clock (.jobj dp) =
      .jobj (setPropList dp8 "header"
        (.jobj (setPropList
          (skillsFixPure (backfillList headerFields hdrDefaultF hp))
          "lastUpdated" (.jstr (mmYYYY clock))))) := by
    rw [specNormalize, hcore]
    simp only [stampPure, jGet, jSet, lookH8, Option.getD_some, specCleanHeader]
  refine ⟨_, hstamp, ?_, ?_, ?_, ?_⟩
  · exact lookupProp_set_same ..
  · rw [lookupProp_set_other _ _ _ _ (by decide), hdp8,
        lookupProp_set_other _ _ _ _ (by decide), hdp7,
        lookupProp_set_other _ _ _ _ (by decide), hdp6, lookupProp_set_same]
    rfl
  · rw [lookupProp_set_other _ _ _ _ (by decide), hdp8,
        lookupProp_set_other _ _ _ _ (by decide), hdp7, lookupProp_set_same]
    rfl
  · rw [lookupProp_set_other _ _ _ _ (by decide), hdp8, lookupProp_set_same]
    rfl

/-! ### Safe-input decomposition and full shaping -/

theorem safeInput_decomp (d : JVal) (h : safeInput d = true) :
    ∃ dp hp ep xs xprops ps pprops,
      d = .jobj dp ∧
      secVal (lookupProp dp "header") (.jobj []) = .jobj hp ∧
      secVal (lookupProp dp "education") (.jobj []) = .jobj ep ∧
      secVal (lookupProp dp "experience") (.jarr [] []) = .jarr xs xprops ∧
      xs.all isObjV = true ∧
      secVal (lookupProp dp "projects") (.jarr [] []) = .jarr ps pprops ∧
      ps.all isObjV = true := by
  cases d with
  | jundefined => simp [safeInput] at h
  | jnull => simp [safeInput] at h
  | jbool b => simp [safeInput] at h
  | jnum n => simp [safeInput] at h
  | jstr s => simp [safeInput] at h
  | jarr es p => simp [safeInput] at h
  | jobj dp =>
      simp only [safeInput, Bool.and_eq_true] at h
      obtain ⟨⟨⟨hH, hE⟩, hX⟩, hP⟩ := h
      obtain ⟨hp, hhp⟩ := secOk_val _ hH
      obtain ⟨ep, hep⟩ := secOk_val _ hE
      obtain ⟨xs, xprops, hxs, hxsall⟩ := entOk_val _ hX
      obtain ⟨ps, pprops, hps, hpsall⟩ := entOk_val _ hP
      exact ⟨dp, hp, ep, xs, xprops, ps, pprops, rfl, hhp, hep, hxs, hxsall,
        hps, hpsall⟩

theorem hdrOut_all_present (hp : List (String × JVal)) (stamp : JVal) :
    ∀ f ∈ headerFields,
      (lookupProp (setPropList
        (skillsFixPure (backfillList headerFields hdrDefaultF hp))
        "lastUpdated" stamp) f).isSome = true := by
  intro f hf
  apply lookupProp_set_isSome
  apply lookupProp_skillsFix_isSome
  exact lookupProp_backfill_isSome headerFields hdrDefaultF hp f hf

theorem eduOut_all_present (ep : List (String × JVal)) :
    ∀ f ∈ eduFields,
      (lookupProp (courseworkFixPure (backfillList eduFields eduDefaultF ep))
        f).isSome = true := by
  intro f hf
  apply lookupProp_cwFix_isSome
  exact lookupProp_backfill_isSome eduFields eduDefaultF ep f hf

theorem allFieldsB_of_isSome (p : List (String × JVal)) (fields : List String)
    (h : ∀ f ∈ fields, (lookupProp p f).isSome = true) :
    allFieldsB (.jobj p) fields = true := by
  rw [allFieldsB, List.all_eq_true]
  intro f hf
  simpa [jHas] using h f hf

theorem entriesShaped_map (fields : List String) (xs : List JVal)
    (xprops : List (String × JVal)) (hall : xs.all isObjV = true) :
    entriesShaped fields (.jarr (xs.map (cleanEntryPure fields)) xprops) = true := by
  rw [entriesShaped, List.all_eq_true]
  intro e he
  rw [List.mem_map] at he
  obtain ⟨x, hx, hex⟩ := he
  have hxo : isObjV x = true := by
    rw [List.all_eq_true] at hall
    exact hall x hx
  cases x with
  | jobj ep =>
      subst hex
      apply allFieldsB_of_isSome
      intro f hf
      simpa [cleanEntryPure, jHas] using
        lookupProp_backfill_isSome fields (fun _ => .jstr "") ep f hf
  | jundefined => simp [isObjV] at hxo
  | jnull => simp [isObjV] at hxo
  | jbool b => simp [isObjV] at hxo
  | jnum n => simp [isObjV] at hxo
  | jstr s => simp [isObjV] at hxo
  | jarr a b => simp [isObjV] at hxo

theorem fullyShaped_specNormalize (clock : Clock) (d : JVal)
    (h : safeInput d = true) :
    fullyShaped (specNormalize clock d) = true := by
  obtain ⟨dp, hp, ep, xs, xprops, ps, pprops, hd, hhp, hep, hxs, hxsall,
    hps, hpsall⟩ := safeInput_decomp d h
  subst hd
  obtain ⟨op, hop, lookH, lookE, lookX, lookP⟩ :=
    specNormalize_sections clock dp hp ep xs ps xprops pprops hhp hep hxs hps
  rw [hop, fullyShaped]
  have h1 : jHas (.jobj op) "header" = true := by simp [jHas, lookH]
  have h2 : jHas (.jobj op) "education" = true := by simp [jHas, lookE]
  have h3 : jHas (.jobj op) "experience" = true := by simp [jHas, lookX]
  have h4 : jHas (.jobj op) "projects" = true := by simp [jHas, lookP]
  have h5 : isObjV (jGet (.jobj op) "header") = true := by
    simp [jGet, lookH, isObjV]
  have h6 : allFieldsB (jGet (.jobj op) "header") headerFields = true := by
    simp only [jGet, lookH, Option.getD_some]
    exact allFieldsB_of_isSome _ _ (hdrOut_all_present hp (.jstr (mmYYYY clock)))
  have h7 : isObjV (jGet (.jobj op) "education") = true := by
    simp [jGet, lookE, isObjV]
  have h8 : allFieldsB (jGet (.jobj op) "education") eduFields = true := by
    simp only [jGet, lookE, Option.getD_some]
    exact allFieldsB_of_isSome _ _ (eduOut_all_present ep)
  have h9 : entriesShaped expFields (jGet (.jobj op) "experience") = true := by
    simp only [jGet, lookX, Option.getD_some]
    exact entriesShaped_map expFields xs xprops hxsall
  have h10 : entriesShaped projFields (jGet (.jobj op) "projects") = true := by
    simp only [jGet, lookP, Option.getD_some]
    exact entriesShaped_map projFields ps pprops hpsall
  simp [h1, h2, h3, h4, h5, h6, h7, h8, h9, h10]

/-! ### Field-level characterizations of the normalized output -/

theorem hdr_field_char (hp : List (String × JVal)) (stamp : JVal) (f : String)
    (hf : f ∈ headerFields) (h1 : f ≠ "lastUpdated") (h2 : f ≠ "skills") :
    jGet (.jobj (setPropList
        (skillsFixPure (backfillList headerFields hdrDefaultF hp))
        "lastUpdated" stamp)) f =
      (if jHas (.jobj hp) f then jGet (.jobj hp) f else .jstr "") := by
  simp only [jGet, jHas]
  rw [lookupProp_set_other _ _ _ _ h1, lookupProp_skillsFix_other _ _ h2,
      lookupProp_backfill]
  cases hl : lookupProp hp f with
  | some v => simp [hl]
  | none => simp [hl, hf, hdrDefaultF, h2]

theorem edu_field_char (ep : List (String × JVal)) (f : String)
    (hf : f ∈ eduFields) (h1 : f ≠ "coursework") :
    jGet (.jobj (courseworkFixPure (backfillList eduFields eduDefaultF ep))) f =
      (if jHas (.jobj ep) f then jGet (.jobj ep) f else .jstr "") := by
  simp only [jGet, jHas]
  rw [lookupProp_cwFix_other _ _ h1, lookupProp_backfill]
  cases hl : lookupProp ep f with
  | some v => simp [hl]
  | none => simp [hl, hf, eduDefaultF, h1]

theorem cw_char (ep : List (String × JVal)) :
    jGet (.jobj (courseworkFixPure (backfillList eduFields eduDefaultF ep)))
        "coursework" =
      (if isArrayV (if jHas (.jobj ep) "coursework"
                    then jGet (.jobj ep) "coursework" else .jarr [] [])
       then (if jHas (.jobj ep) "coursework"
             then jGet (.jobj ep) "coursework" else .jarr [] [])
       else .jarr [] []) := by
  simp only [jGet, jHas]
  rw [lookupProp_cwFix_cw, Option.getD_some, lookupProp_backfill]
  cases hl : lookupProp ep "coursework" with
  | some v => simp [hl]
  | none => simp [hl, eduDefaultF, isArrayV, eduFields]

theorem entries_field_char (fields : List String) (xs : List JVal)
    (xprops : List (String × JVal)) (hall : xs.all isObjV = true)
    (i : Nat) (hi : i < xs.length) (f : String) (hf : f ∈ fields) :
    jGet (jIdx (.jarr (xs.map (cleanEntryPure fields)) xprops) i) f =
      (if jHas (jIdx (.jarr xs xprops) i) f
       then jGet (jIdx (.jarr xs xprops) i) f else .jstr "") := by
  simp only [jIdx]
  obtain ⟨x, hx⟩ : ∃ x, xs.get? i = some x :=
    ⟨xs.get ⟨i, hi⟩, List.get?_eq_get hi⟩
  have hmem : x ∈ xs := List.get?_mem hx
  have hxo : isObjV x = true := by
    rw [List.all_eq_true] at hall
    exact hall x hmem
  have hgd : xs.getD i .jundefined = x := by
    rw [List.getD_eq_get?, hx]
    rfl
  have hgdm : (xs.map (cleanEntryPure fields)).getD i .jundefined =
      cleanEntryPure fields x := by
    rw [List.getD_eq_get?, List.get?_map, hx]
    rfl
  rw [hgd, hgdm]
  cases x with
  | jobj ep => exact cleanEntryPure_field fields ep f hf
  | jundefined => simp [isObjV] at hxo
  | jnull => simp [isObjV] at hxo
  | jbool b => simp [isObjV] at hxo
  | jnum n => simp [isObjV] at hxo
  | jstr s => simp [isObjV] at hxo
  | jarr a b => simp [isObjV] at hxo

/-! ### Claim C1: totality of the normalizer -/

/-- The amended claim C1: on every safe input — a JSON object whose header and
education slots are absent, falsy or objects and whose experience and projects
slots are absent, falsy or arrays of objects — `validateAndCleanData` throws
nowhere and returns a fully-shaped Canonical Resume Record.  (The
counterexample shows the original claim's quantification over all JSON values
fails: `null` input throws.) -/
theorem c1_normalize_total_safe (clock : Clock) (d : JVal)
    (h : safeInput d = true) :
    ∃ out, validateAndCleanData clock d = .ok out ∧ fullyShaped out = true :=
  ⟨specNormalize clock d, validateAndCleanData_safe clock d h,
   fullyShaped_specNormalize clock d h⟩

/-- Witness: a small safe object normalizes to a fully-shaped record. -/
theorem c1_normalize_total_safe_witness :
    ∃ out, validateAndCleanData ⟨1, 2024⟩
      (.jobj [("header", .jobj [("name", .jstr "A. Dev")])]) = .ok out ∧
      fullyShaped out = true :=
  c1_normalize_total_safe ⟨1, 2024⟩
    (.jobj [("header", .jobj [("name", .jstr "A. Dev")])]) (by decide)

/-- Counterexample to claim C1 as stated: feeding the JSON value `null` to the
normalizer throws a `TypeError` (reading `.header` of `null`), so the function
is not total on all syntactically valid JSON values. -/
theorem c1_counterexample :
    validateAndCleanData ⟨1, 2024⟩ .jnull =
      .error (.typeError "Cannot read properties of null (reading header)") := rfl

/-! ### Claim C3: skills shape coercion -/

/-- The amended claim C3: after normalization, `header.skills` is the input's
skills value when that value has `typeof` `"object"` and is not an array, and
`{}` otherwise (in particular when the key is absent, a list, or a primitive).
Because `typeof null` is `"object"` in JavaScript, an explicit `null` skills
value survives normalization — it is not replaced by `{}` — and the members of
a surviving mapping are not checked to be arrays. -/
theorem c3_skills_amended (clock : Clock) (d : JVal) (h : safeInput d = true) :
    ∃ out, validateAndCleanData clock d = .ok out ∧
      jGet (jGet out "header") "skills" =
        (if jsTypeof (jGet (headerIn d) "skills") != "object" ||
            isArrayV (jGet (headerIn d) "skills")
         then .jobj [] else jGet (headerIn d) "skills") := by
  obtain ⟨dp, hp, ep, xs, xprops, ps, pprops, hd, hhp, hep, hxs, hxsall,
    hps, hpsall⟩ := safeInput_decomp d h
  subst hd
  obtain ⟨op, hop, lookH, lookE, lookX, lookP⟩ :=
    specNormalize_sections clock dp hp ep xs ps xprops pprops hhp hep hxs hps
  refine ⟨_, validateAndCleanData_safe clock _ h, ?_⟩
  rw [hop]
  have hhi : headerIn (.jobj dp) = .jobj hp := by
    rw [headerIn, secVal_eq_in, hhp]
  rw [hhi]
  simp only [jGet, lookH, Option.getD_some]
  rw [lookupProp_set_other _ _ _ _ (by decide), lookupProp_skillsFix_skills,
      Option.getD_some, lookupProp_backfill]
  cases hl : lookupProp hp "skills" with
  | some v => simp [hl]
  | none => simp [hl, hdrDefaultF, jsTypeof, isArrayV, headerFields]

/-- Witness: the amended skills coercion at an input whose skills is the list
`["a","b"]` (coerced to `{}`). -/
theorem c3_skills_amended_witness :
    ∃ out, validateAndCleanData ⟨1, 2024⟩
        (.jobj [("header", .jobj [("skills", .jarr [.jstr "a", .jstr "b"] [])])]) =
      .ok out ∧
      jGet (jGet out "header") "skills" =
        (if jsTypeof (jGet (headerIn (.jobj [("header",
              .jobj [("skills", .jarr [.jstr "a", .jstr "b"] [])])])) "skills")
            != "object" ||
            isArrayV (jGet (headerIn (.jobj [("header",
              .jobj [("skills", .jarr [.jstr "a", .jstr "b"] [])])])) "skills")
         then .jobj [] else jGet (headerIn (.jobj [("header",
              .jobj [("skills", .jarr [.jstr "a", .jstr "b"] [])])])) "skills") :=
  c3_skills_amended ⟨1, 2024⟩
    (.jobj [("header", .jobj [("skills", .jarr [.jstr "a", .jstr "b"] [])])])
    (by decide)

/-- Counterexample to claim C3 as stated: with `header.skills = null` the
output's skills is still `null` — not the `{}` the claim requires for null —
because `typeof null` is `"object"` and `Array.isArray null` is false, so the
coercion guard does not fire. -/
theorem c3_counterexample :
    (validateAndCleanData ⟨1, 2024⟩
        (.jobj [("header", .jobj [("skills", .jnull)])])).toOption.map
      (fun o => isNullV (jGet (jGet o "header") "skills")) = some true ∧
    (validateAndCleanData ⟨1, 2024⟩
        (.jobj [("header", .jobj [("skills", .jnull)])])).toOption.map
      (fun o => isObjV (jGet (jGet o "header") "skills")) = some false :=
  ⟨rfl, rfl⟩

/-! ### Claim C2: canonical backfill -/

/-- The amended claim C2: on every safe input, normalization succeeds with a
fully-shaped record in which (i) every canonical header string field other
than `lastUpdated` and `skills` is the input's value when the key was present
— even when that value is `null` — and `""` when absent; (ii) likewise for
education fields, with `coursework` backfilled to `[]` and forced to `[]`
when present but not an array; (iii) the experience and projects lists keep
their input length and order (entry `i` of the output is the cleanup of entry
`i` of the input) with each missing canonical entry field backfilled with
`""` and each present one kept.  The original claim's "no canonical field of
the output is null" is dropped: a field that is present with value `null` is
left `null`. -/
theorem c2_backfill_amended (clock : Clock) (d : JVal) (h : safeInput d = true) :
    ∃ out, validateAndCleanData clock d = .ok out ∧
      fullyShaped out = true ∧
      (∀ f ∈ headerFields, f ≠ "lastUpdated" → f ≠ "skills" →
        jGet (jGet out "header") f =
          (if jHas (headerIn d) f then jGet (headerIn d) f else .jstr "")) ∧
      (∀ f ∈ eduFields, f ≠ "coursework" →
        jGet (jGet out "education") f =
          (if jHas (eduIn d) f then jGet (eduIn d) f else .jstr "")) ∧
      jGet (jGet out "education") "coursework" =
        (if isArrayV (if jHas (eduIn d) "coursework"
                      then jGet (eduIn d) "coursework" else .jarr [] [])
         then (if jHas (eduIn d) "coursework"
               then jGet (eduIn d) "coursework" else .jarr [] [])
         else .jarr [] []) ∧
      (∃ xs xprops, expIn d = .jarr xs xprops ∧
        jGet out "experience" = .jarr (xs.map (cleanEntryPure expFields)) xprops ∧
        (∀ i < xs.length, ∀ f ∈ expFields,
          jGet (jIdx (jGet out "experience") i) f =
            (if jHas (jIdx (expIn d) i) f
             then jGet (jIdx (expIn d) i) f else .jstr ""))) ∧
      (∃ ps pprops, projIn d = .jarr ps pprops ∧
        jGet out "projects" = .jarr (ps.map (cleanEntryPure projFields)) pprops ∧
        (∀ i < ps.length, ∀ f ∈ projFields,
          jGet (jIdx (jGet out "projects") i) f =
            (if jHas (jIdx (projIn d) i) f
             then jGet (jIdx (projIn d) i) f else .jstr ""))) := by
  obtain ⟨dp, hp, ep, xs, xprops, ps, pprops, hd, hhp, hep, hxs, hxsall,
    hps, hpsall⟩ := safeInput_decomp d h
  subst hd
  obtain ⟨op, hop, lookH, lookE, lookX, lookP⟩ :=
    specNormalize_sections clock dp hp ep xs ps xprops pprops hhp hep hxs hps
  have hhi : headerIn (.jobj dp) = .jobj hp := by
    rw [headerIn, secVal_eq_in, hhp]
  have hei : eduIn (.jobj dp) = .jobj ep := by
    rw [eduIn, secVal_eq_in, hep]
  have hxi : expIn (.jobj dp) = .jarr xs xprops := by
    rw [expIn, secVal_eq_in, hxs]
  have hpi : projIn (.jobj dp) = .jarr ps pprops := by
    rw [projIn, secVal_eq_in, hps]
  refine ⟨_, validateAndCleanData_safe clock _ h,
    fullyShaped_specNormalize clock _ h, ?_, ?_, ?_, ?_, ?_⟩
  · intro f hf h1 h2
    rw [hop, hhi]
    simp only [jGet, lookH, Option.getD_some]
    exact hdr_field_char hp (.jstr (mmYYYY clock)) f hf h1 h2
  · intro f hf h1
    rw [hop, hei]
    simp only [jGet, lookE, Option.getD_some]
    exact edu_field_char ep f hf h1
  · rw [hop, hei]
    simp only [jGet, lookE, Option.getD_some]
    exact cw_char ep
  · refine ⟨xs, xprops, hxi, ?_, ?_⟩
    · rw [hop]
      simp [jGet, lookX]
    · intro i hi f hf
      rw [hop, hxi]
      simp only [jGet, lookX, Option.getD_some]
      exact entries_field_char expFields xs xprops hxsall i hi f hf
  · refine ⟨ps, pprops, hpi, ?_, ?_⟩
    · rw [hop]
      simp [jGet, lookP]
    · intro i hi f hf
      rw [hop, hpi]
      simp only [jGet, lookP, Option.getD_some]
      exact entries_field_char projFields ps pprops hpsall i hi f hf

/-- Witness for the amended C2 at the spec's own end-to-end sample: a header
with only `name` and `email`, one experience entry with only `title`. -/
theorem c2_backfill_amended_witness :
    ∃ out, validateAndCleanData ⟨1, 2024⟩
      (.jobj [("header", .jobj [("name", .jstr "A. Dev"),
                                ("email", .jstr "a@x.com")]),
              ("experience", .jarr [.jobj [("title", .jstr "Acme")]] [])]) =
        .ok out ∧ fullyShaped out = true ∧
        jGet (jGet out "header") "name" = .jstr "A. Dev" := by
  obtain ⟨out, hok, hshaped, hhdr, _⟩ :=
    c2_backfill_amended ⟨1, 2024⟩
      (.jobj [("header", .jobj [("name", .jstr "A. Dev"),
                                ("email", .jstr "a@x.com")]),
              ("experience", .jarr [.jobj [("title", .jstr "Acme")]] [])])
      (by decide)
  refine ⟨out, hok, hshaped, ?_⟩
  have := hhdr "name" (by decide) (by decide) (by decide)
  rw [this]
  rfl

/-- Counterexample to claim C2 as stated: a header field that is present with
an explicit `null` value stays `null` in the output (the backfill only tests
key presence with `in`), contradicting "no canonical field of the output is
null". -/
theorem c2_counterexample :
    (validateAndCleanData ⟨1, 2024⟩
        (.jobj [("header", .jobj [("email", .jnull)])])).toOption.map
      (fun o => isNullV (jGet (jGet o "header") "email")) = some true := rfl

/-! ### Claim C9: award round-trip -/

/-- Claim C9: a present `award` field of a project entry is preserved
unchanged in value and shape by normalization — a string stays that string, a
list stays that list.  The statement preserves the exact `JVal`, which covers
both representations. -/
theorem c9_award_preserved (clock : Clock) (d : JVal) (h : safeInput d = true)
    (i : Nat) (ps : List JVal) (pprops : List (String × JVal))
    (hpi : projIn d = .jarr ps pprops) (hi : i < ps.length)
    (hhas : jHas (jIdx (projIn d) i) "award" = true) :
    ∃ out, validateAndCleanData clock d = .ok out ∧
      jGet (jIdx (jGet out "projects") i) "award" =
        jGet (jIdx (projIn d) i) "award" := by
  obtain ⟨dp, hp, ep, xs, xprops, ps0, pprops0, hd, hhp, hep, hxs, hxsall,
    hps, hpsall⟩ := safeInput_decomp d h
  subst hd
  have hpi0 : projIn (.jobj dp) = .jarr ps0 pprops0 := by
    rw [projIn, secVal_eq_in, hps]
  rw [hpi0] at hpi
  cases hpi
  obtain ⟨op, hop, lookH, lookE, lookX, lookP⟩ :=
    specNormalize_sections clock dp hp ep xs ps xprops pprops hhp hep hxs hps
  refine ⟨_, validateAndCleanData_safe clock _ h, ?_⟩
  rw [hop, hpi0]
  simp only [jGet, lookP, Option.getD_some]
  have hchar := entries_field_char projFields ps pprops hpsall i hi "award"
    (by decide)
  rw [hpi0] at hhas
  simp only [jGet] at hchar
  rw [hchar, if_pos hhas]

/-- Witness: both award representations survive — `award: "First Place"` on
entry 0 and `award: ["First Place","Best Design"]` on entry 1 of the same
projects list. -/
theorem c9_award_preserved_witness :
    (∃ out, validateAndCleanData ⟨1, 2024⟩
        (.jobj [("projects", .jarr
          [.jobj [("award", .jstr "First Place")],
           .jobj [("award", .jarr [.jstr "First Place", .jstr "Best Design"] [])]]
          [])]) = .ok out ∧
      jGet (jIdx (jGet out "projects") 0) "award" =
        jGet (jIdx (projIn (.jobj [("projects", .jarr
          [.jobj [("award", .jstr "First Place")],
           .jobj [("award", .jarr [.jstr "First Place", .jstr "Best Design"] [])]]
          [])])) 0) "award") ∧
    (∃ out, validateAndCleanData ⟨1, 2024⟩
        (.jobj [("projects", .jarr
          [.jobj [("award", .jstr "First Place")],
           .jobj [("award", .jarr [.jstr "First Place", .jstr "Best Design"] [])]]
          [])]) = .ok out ∧
      jGet (jIdx (jGet out "projects") 1) "award" =
        jGet (jIdx (projIn (.jobj [("projects", .jarr
          [.jobj [("award", .jstr "First Place")],
           .jobj [("award", .jarr [.jstr "First Place", .jstr "Best Design"] [])]]
          [])])) 1) "award") :=
  ⟨c9_award_preserved ⟨1, 2024⟩ _ (by decide) 0 _ _ rfl (by decide) (by decide),
   c9_award_preserved ⟨1, 2024⟩ _ (by decide) 1 _ _ rfl (by decide) (by decide)⟩

/-! ### Idempotence machinery -/

theorem ensurePure_id (dp : List (String × JVal)) (k : String) (dflt v : JVal)
    (hl : lookupProp dp k = some v) (ht : truthy v = true) :
    ensurePure dp k dflt = dp := by
  rw [ensurePure, hl]
  simp [ht]

theorem setPropList_setPropList_same (p : List (String × JVal)) (k : String)
    (a b : JVal) : setPropList (setPropList p k a) k b = setPropList p k b := by
  induction p with
  | nil => simp [setPropList]
  | cons pr rest ih =>
      obtain ⟨x, y⟩ := pr
      by_cases hx : x = k
      · simp [setPropList, hx]
      · simp [setPropList, hx, ih]

theorem jSet_jSet_same (v : JVal) (k : String) (a b : JVal) :
    jSet (jSet v k a) k b = jSet v k b := by
  cases v <;> simp [jSet, setPropList_setPropList_same]

theorem skillsFixPure_id_of (hp : List (String × JVal))
    (h : (jsTypeof ((lookupProp hp "skills").getD .jundefined) != "object" ||
          isArrayV ((lookupProp hp "skills").getD .jundefined)) = false) :
    skillsFixPure hp = hp := by
  rw [skillsFixPure, if_neg (by simp [h])]

theorem courseworkFixPure_id_of (ep : List (String × JVal))
    (h : isArrayV ((lookupProp ep "coursework").getD .jundefined) = true) :
    courseworkFixPure ep = ep := by
  rw [courseworkFixPure, if_pos h]

theorem skills_cond_out (bl : List (String × JVal)) (stamp : JVal) :
    (jsTypeof ((lookupProp (setPropList (skillsFixPure bl) "lastUpdated" stamp)
        "skills").getD .jundefined) != "object" ||
     isArrayV ((lookupProp (setPropList (skillsFixPure bl) "lastUpdated" stamp)
        "skills").getD .jundefined)) = false := by
  rw [lookupProp_set_other _ _ _ _ (by decide), lookupProp_skillsFix_skills,
      Option.getD_some]
  by_cases hc : (jsTypeof ((lookupProp bl "skills").getD .jundefined) != "object" ||
      isArrayV ((lookupProp bl "skills").getD .jundefined)) = true
  · rw [if_pos hc]
    rfl
  · rw [if_neg hc]
    simpa using hc

theorem cw_ok_out (ep : List (String × JVal)) :
    isArrayV ((lookupProp (courseworkFixPure ep) "coursework").getD .jundefined) =
      true := by
  rw [lookupProp_cwFix_cw, Option.getD_some]
  by_cases hc : isArrayV ((lookupProp ep "coursework").getD .jundefined) = true
  · rwa [if_pos hc]
  · rw [if_neg hc]
    rfl

theorem cleanEntryPure_idem (fields : List String) (e : JVal) :
    cleanEntryPure fields (cleanEntryPure fields e) = cleanEntryPure fields e := by
  cases e with
  | jobj ep =>
      simp only [cleanEntryPure]
      rw [backfillList_of_all_present]
      intro f hf
      exact lookupProp_backfill_isSome fields (fun _ => .jstr "") ep f hf
  | jundefined => rfl
  | jnull => rfl
  | jbool b => rfl
  | jnum n => rfl
  | jstr s => rfl
  | jarr a b => rfl

theorem map_cleanEntry_idem (fields : List String) (xs : List JVal) :
    (xs.map (cleanEntryPure fields)).map (cleanEntryPure fields) =
      xs.map (cleanEntryPure fields) := by
  rw [List.map_map]
  apply List.map_congr_left
  intro x _
  exact cleanEntryPure_idem fields x

theorem map_cleanEntry_all_objV (fields : List String) (xs : List JVal)
    (hall : xs.all isObjV = true) :
    (xs.map (cleanEntryPure fields)).all isObjV = true := by
  rw [List.all_eq_true]
  intro e he
  rw [List.mem_map] at he
  obtain ⟨x, hx, hex⟩ := he
  have hxo : isObjV x = true := by
    rw [List.all_eq_true] at hall
    exact hall x hx
  cases x with
  | jobj ep =>
      subst hex
      rfl
  | jundefined => simp [isObjV] at hxo
  | jnull => simp [isObjV] at hxo
  | jbool b => simp [isObjV] at hxo
  | jnum n => simp [isObjV] at hxo
  | jstr s => simp [isObjV] at hxo
  | jarr a b => simp [isObjV] at hxo

theorem safeInput_specNormalize (clock : Clock) (d : JVal)
    (h : safeInput d = true) : safeInput (specNormalize clock d) = true := by
  obtain ⟨dp, hp, ep, xs, xprops, ps, pprops, hd, hhp, hep, hxs, hxsall,
    hps, hpsall⟩ := safeInput_decomp d h
  subst hd
  obtain ⟨op, hop, lookH, lookE, lookX, lookP⟩ :=
    specNormalize_sections clock dp hp ep xs ps xprops pprops hhp hep hxs hps
  rw [hop]
  simp only [safeInput, lookH, lookE, lookX, lookP, Bool.and_eq_true]
  refine ⟨⟨⟨?_, ?_⟩, ?_⟩, ?_⟩
  · simp [secOk, isObjV]
  · simp [secOk, isObjV]
  · simp only [entOk, truthy, Bool.not_true, Bool.false_or]
    exact map_cleanEntry_all_objV expFields xs hxsall
  · simp only [entOk, truthy, Bool.not_true, Bool.false_or]
    exact map_cleanEntry_all_objV projFields ps hpsall

theorem jGet_jSet_other (v : JVal) (k k' : String) (x : JVal) (h : k' ≠ k) :
    jGet (jSet v k x) k' = jGet v k' := by
  cases v <;> simp [jSet, jGet, lookupProp_set_other _ _ _ _ h]

theorem coreNorm_specNormalize_id (clock : Clock) (d : JVal)
    (h : safeInput d = true) :
    coreNorm (specNormalize clock d) = specNormalize clock d := by
  obtain ⟨dp, hp, ep, xs, xprops, ps, pprops, hd, hhp, hep, hxs, hxsall,
    hps, hpsall⟩ := safeInput_decomp d h
  subst hd
  obtain ⟨op, hop, lookH, lookE, lookX, lookP⟩ :=
    specNormalize_sections clock dp hp ep xs ps xprops pprops hhp hep hxs hps
  rw [hop]
  simp only [coreNorm]
  rw [ensurePure_id op "header" (.jobj []) _ lookH rfl,
      ensurePure_id op "education" (.jobj []) _ lookE rfl,
      ensurePure_id op "experience" (.jarr [] []) _ lookX rfl,
      ensurePure_id op "projects" (.jarr [] []) _ lookP rfl]
  have hbl : backfillList headerFields hdrDefaultF
      (setPropList (skillsFixPure (backfillList headerFields hdrDefaultF hp))
        "lastUpdated" (.jstr (mmYYYY clock))) =
      setPropList (skillsFixPure (backfillList headerFields hdrDefaultF hp))
        "lastUpdated" (.jstr (mmYYYY clock)) :=
    backfillList_of_all_present _ _ _
      (hdrOut_all_present hp (.jstr (mmYYYY clock)))
  have hsf := skillsFixPure_id_of _
    (skills_cond_out (backfillList headerFields hdrDefaultF hp)
      (.jstr (mmYYYY clock)))
  have s1 : setPropList op "header"
      (specCleanHeader ((lookupProp op "header").getD .jundefined)) = op := by
    rw [lookH, Option.getD_some]
    simp only [specCleanHeader]
    rw [hbl, hsf]
    exact setPropList_id op "header" _ lookH
  rw [s1]
  have hble : backfillList eduFields eduDefaultF
      (courseworkFixPure (backfillList eduFields eduDefaultF ep)) =
      courseworkFixPure (backfillList eduFields eduDefaultF ep) :=
    backfillList_of_all_present _ _ _ (eduOut_all_present ep)
  have hcf := courseworkFixPure_id_of _
    (cw_ok_out (backfillList eduFields eduDefaultF ep))
  have s2 : setPropList op "education"
      (specCleanEdu ((lookupProp op "education").getD .jundefined)) = op := by
    rw [lookE, Option.getD_some]
    simp only [specCleanEdu]
    rw [hble, hcf]
    exact setPropList_id op "education" _ lookE
  rw [s2]
  have s3 : setPropList op "experience"
      (specCleanEntries expFields ((lookupProp op "experience").getD .jundefined)) =
      op := by
    rw [lookX, Option.getD_some]
    simp only [specCleanEntries]
    rw [map_cleanEntry_idem]
    exact setPropList_id op "experience" _ lookX
  rw [s3]
  have s4 : setPropList op "projects"
      (specCleanEntries projFields ((lookupProp op "projects").getD .jundefined)) =
      op := by
    rw [lookP, Option.getD_some]
    simp only [specCleanEntries]
    rw [map_cleanEntry_idem]
    exact setPropList_id op "projects" _ lookP
  rw [s4]

theorem stampPure_absorb (c1 c2 : Clock) (q : List (String × JVal)) :
    stampPure c2 (stampPure c1 (.jobj q)) = stampPure c2 (.jobj q) := by
  rw [show stampPure c1 (.jobj q) = .jobj (setPropList q "header"
      (jSet (jGet (.jobj q) "header") "lastUpdated" (.jstr (mmYYYY c1)))) from rfl]
  rw [show stampPure c2 (.jobj (setPropList q "header"
      (jSet (jGet (.jobj q) "header") "lastUpdated" (.jstr (mmYYYY c1))))) =
    jSet (.jobj (setPropList q "header"
      (jSet (jGet (.jobj q) "header") "lastUpdated" (.jstr (mmYYYY c1))))) "header"
      (jSet (jGet (.jobj (setPropList q "header"
        (jSet (jGet (.jobj q) "header") "lastUpdated" (.jstr (mmYYYY c1)))))
        "header") "lastUpdated" (.jstr (mmYYYY c2))) from rfl]
  have hg : jGet (.jobj (setPropList q "header"
      (jSet (jGet (.jobj q) "header") "lastUpdated" (.jstr (mmYYYY c1))))) "header"
      = jSet (jGet (.jobj q) "header") "lastUpdated" (.jstr (mmYYYY c1)) := by
    simp [jGet, lookupProp_set_same]
  rw [hg, jSet_jSet_same]
  rw [show stampPure c2 (.jobj q) = jSet (.jobj q) "header"
      (jSet (jGet (.jobj q) "header") "lastUpdated" (.jstr (mmYYYY c2))) from rfl]
  simp only [jSet]
  rw [setPropList_setPropList_same]

/-! ### Claim C10: idempotence up to the timestamp -/

/-- Claim C10: on a safe input, normalizing the normalizer's own output again
(at any clock) succeeds and changes nothing but `header.lastUpdated`, which
always carries the stamp of the second call; with a frozen clock the second
run returns the first run's record identically. -/
theorem c10_idempotence (c1 c2 : Clock) (d out : JVal) (h : safeInput d = true)
    (h1 : validateAndCleanData c1 d = .ok out) :
    validateAndCleanData c2 out = .ok (specNormalize c2 d) ∧
    (∀ k, k ≠ "header" → jGet (specNormalize c2 d) k = jGet out k) ∧
    (∀ f, f ≠ "lastUpdated" →
      jGet (jGet (specNormalize c2 d) "header") f = jGet (jGet out "header") f) ∧
    jGet (jGet (specNormalize c2 d) "header") "lastUpdated" =
      .jstr (mmYYYY c2) ∧
    (c2 = c1 → validateAndCleanData c2 out = .ok out) := by
  obtain ⟨dp, hp, ep, xs, xprops, ps, pprops, hd, hhp, hep, hxs, hxsall,
    hps, hpsall⟩ := safeInput_decomp d h
  have hout : specNormalize c1 d = out :=
    Except.ok.inj ((validateAndCleanData_safe c1 d h).symm.trans h1)
  subst hout
  subst hd
  obtain ⟨q, hq⟩ : ∃ q, coreNorm (.jobj dp) = .jobj q := ⟨_, rfl⟩
  have hs : ∀ c : Clock, specNormalize c (.jobj dp) = stampPure c (.jobj q) := by
    intro c
    rw [specNormalize, hq]
  have hcollapse : specNormalize c2 (specNormalize c1 (.jobj dp)) =
      specNormalize c2 (.jobj dp) := by
    rw [show specNormalize c2 (specNormalize c1 (.jobj dp)) =
        stampPure c2 (coreNorm (specNormalize c1 (.jobj dp))) from rfl,
      coreNorm_specNormalize_id c1 (.jobj dp) h, hs c1, hs c2]
    exact stampPure_absorb c1 c2 q
  have h2 : validateAndCleanData c2 (specNormalize c1 (.jobj dp)) =
      .ok (specNormalize c2 (.jobj dp)) := by
    rw [validateAndCleanData_safe c2 _ (safeInput_specNormalize c1 _ h),
        hcollapse]
  have hhdr : ∀ c : Clock, jGet (stampPure c (.jobj q)) "header" =
      jSet (jGet (.jobj q) "header") "lastUpdated" (.jstr (mmYYYY c)) := by
    intro c
    simp [stampPure, jGet, jSet, lookupProp_set_same]
  refine ⟨h2, ?_, ?_, ?_, ?_⟩
  · intro k hk
    rw [hs c1, hs c2]
    have hd1 : ∀ c : Clock, jGet (stampPure c (.jobj q)) k = jGet (.jobj q) k := by
      intro c
      rw [show stampPure c (.jobj q) = jSet (.jobj q) "header"
          (jSet (jGet (.jobj q) "header") "lastUpdated" (.jstr (mmYYYY c)))
          from rfl]
      exact jGet_jSet_other _ _ _ _ hk
    rw [hd1 c1, hd1 c2]
  · intro f hf
    rw [hs c1, hs c2, hhdr c1, hhdr c2,
        jGet_jSet_other _ _ _ _ hf, jGet_jSet_other _ _ _ _ hf]
  · obtain ⟨op, hop, lookH, lookE, lookX, lookP⟩ :=
      specNormalize_sections c2 dp hp ep xs ps xprops pprops hhp hep hxs hps
    rw [hop]
    simp [jGet, lookH, lookupProp_set_same]
  · intro he
    subst he
    exact h2

/-- Witness: normalizing a concrete record twice with the frozen clock 3/2025
returns it unchanged, and re-normalizing at 7/2030 changes only the stamp. -/
theorem c10_idempotence_witness :
    validateAndCleanData ⟨3, 2025⟩
        (specNormalize ⟨3, 2025⟩ (.jobj [("header", .jobj [("email", .jstr "a@x.com")])])) =
      .ok (specNormalize ⟨3, 2025⟩ (.jobj [("header", .jobj [("email", .jstr "a@x.com")])])) ∧
    jGet (jGet (specNormalize ⟨7, 2030⟩
        (.jobj [("header", .jobj [("email", .jstr "a@x.com")])])) "header")
      "lastUpdated" = .jstr (mmYYYY ⟨7, 2030⟩) :=
  ⟨(c10_idempotence ⟨3, 2025⟩ ⟨3, 2025⟩
      (.jobj [("header", .jobj [("email", .jstr "a@x.com")])])
      (specNormalize ⟨3, 2025⟩ (.jobj [("header", .jobj [("email", .jstr "a@x.com")])]))
      (by decide) (validateAndCleanData_safe _ _ (by decide))).2.2.2.2 rfl,
   (c10_idempotence ⟨3, 2025⟩ ⟨7, 2030⟩
      (.jobj [("header", .jobj [("email", .jstr "a@x.com")])])
      (specNormalize ⟨3, 2025⟩ (.jobj [("header", .jobj [("email", .jstr "a@x.com")])]))
      (by decide) (validateAndCleanData_safe _ _ (by decide))).2.2.2.1⟩
